import Mathlib

/-!
Verification of the `unversion` prompt-management library.

This file gives a shallow embedding of the core of the library
(`src/unversion/store.py` and `src/unversion/observer.py`) and proves the
specification's claims about it.

Modelling conventions:
* Parsed JSON data (the result of Python's `json.load`) is the inductive
  `JValue`; a JSON object is an association list whose keys are unique,
  as in a Python `dict` (insertion order preserved).
* Python exceptions are the inductive `PyExc`; a function that can raise
  returns `Except PyExc _`.
* Python floats are modelled as rationals (`ℚ`); machine integers as `Nat`/`Int`.
* Python's builtin `str.format` is modelled for plain replacement fields
  (named fields without conversion `!`, format spec `:`, attribute access or
  indexing); `str.replace`, `sorted` (on strings, by code point), `json.loads`
  and `hashlib.sha256` are modelled directly from their documented semantics.
-/

namespace Unversion

/-- A parsed JSON value, as produced by Python's `json.load`.  Objects are
insertion-ordered association lists with unique keys (Python `dict`). -/
inductive JValue where
  | null : JValue
  | bool (b : Bool) : JValue
  | num (q : ℚ) : JValue
  | str (s : String) : JValue
  | arr (xs : List JValue) : JValue
  | obj (fields : List (String × JValue)) : JValue
deriving Repr

mutual

/-- Decidable equality for `JValue` (needed because the inductive is nested). -/
def JValue.beq : JValue → JValue → Bool
  | .null, .null => true
  | .bool a, .bool b => a == b
  | .num a, .num b => a == b
  | .str a, .str b => a == b
  | .arr a, .arr b => JValue.beqList a b
  | .obj a, .obj b => JValue.beqFields a b
  | _, _ => false

def JValue.beqList : List JValue → List JValue → Bool
  | [], [] => true
  | a :: as, b :: bs => JValue.beq a b && JValue.beqList as bs
  | _, _ => false

def JValue.beqFields : List (String × JValue) → List (String × JValue) → Bool
  | [], [] => true
  | (k, a) :: as, (l, b) :: bs => k == l && JValue.beq a b && JValue.beqFields as bs
  | _, _ => false

end

/-- Python truthiness (`bool(v)`) of a JSON value. -/
def JValue.truthy : JValue → Bool
  | .null => false
  | .bool b => b
  | .num q => !(q == 0)
  | .str s => !(s == "")
  | .arr xs => !xs.isEmpty
  | .obj fs => !fs.isEmpty

/-- Python `dict.get(k, default)` on a parsed JSON object's fields. -/
def pyDictGet (fields : List (String × JValue)) (k : String) (d : JValue) : JValue :=
  match fields.find? (fun p => p.1 == k) with
  | some p => p.2
  | none => d

/-- Python `dict` assignment `m[k] = v`: overwrite in place if the key exists,
otherwise append (insertion order preserved). -/
def dictInsert {α : Type} (m : List (String × α)) (k : String) (v : α) :
    List (String × α) :=
  if (m.find? (fun p => p.1 == k)).isSome then
    m.map (fun p => if p.1 == k then (k, v) else p)
  else m ++ [(k, v)]

/-- The Python exceptions the embedded code can raise. -/
inductive PyExc where
  | keyError (k : String) : PyExc
  | valueError : PyExc
  | indexError : PyExc
  | attributeError : PyExc
  | jsonDecodeError : PyExc
deriving Repr, DecidableEq

/-! ## `str.format` (the fragment used by `Prompt.format`)

CPython's `str.format` called with keyword arguments only, restricted to
plain replacement fields.  Scanning is left to right; the first error wins:
* `{{` and `}}` are literal braces;
* a single `}` outside a field raises `ValueError`;
* after `{`, field characters are read up to `}`; a `{` inside a field or an
  unterminated field raises `ValueError`;
* an empty or all-digit field is positional; with no positional arguments it
  raises `IndexError`;
* any other field is looked up among the keyword arguments; a missing key
  raises `KeyError`.
Keyword argument values are taken as strings (already stringified). -/

/-- Python `dict` lookup among the keyword arguments. -/
def lookupKw (kwargs : List (String × String)) (k : String) : Option String :=
  (kwargs.find? (fun p => p.1 == k)).map Prod.snd

/-- The `str.format` scanning loop (CPython `do_markup`), keyword arguments
only, plain replacement fields, written as a state machine so that recursion
is structural: `mode = none` is literal mode, `mode = some acc` is inside a
replacement field with the field's characters accumulated in reverse. -/
def fmtScan (kwargs : List (String × String)) :
    Option (List Char) → List Char → Except PyExc (List Char)
  | none, [] => .ok []
  | none, c :: rest =>
    if c = '{' then
      match rest with
      | [] => .error .valueError
      | d :: rest' =>
        if d = '{' then
          match fmtScan kwargs none rest' with
          | .ok out => .ok ('{' :: out)
          | .error e => .error e
        else if d = '}' then .error .indexError
        else fmtScan kwargs (some [d]) rest'
    else if c = '}' then
      match rest with
      | [] => .error .valueError
      | d :: rest' =>
        if d = '}' then
          match fmtScan kwargs none rest' with
          | .ok out => .ok ('}' :: out)
          | .error e => .error e
        else .error .valueError
    else
      match fmtScan kwargs none rest with
      | .ok out => .ok (c :: out)
      | .error e => .error e
  | some _, [] => .error .valueError
  | some acc, c :: rest =>
    if c = '{' then .error .valueError
    else if c = '}' then
      let f := acc.reverse
      if f.all Char.isDigit then .error .indexError
      else
        match lookupKw kwargs (String.mk f) with
        | none => .error (.keyError (String.mk f))
        | some v =>
          match fmtScan kwargs none rest with
          | .ok out => .ok (v.data ++ out)
          | .error e => .error e
    else fmtScan kwargs (some (c :: acc)) rest

/-- `text.format(**kwargs)` for nonempty `kwargs` of string values. -/
def doMarkup (kwargs : List (String × String)) (l : List Char) :
    Except PyExc (List Char) :=
  fmtScan kwargs none l

/-- Python `str.replace` scanning loop for a nonempty pattern, structural on
the string: a nonzero skip counter means we are inside an already-replaced
occurrence and the next `skip` characters are consumed without output. -/
def replaceSkip (old new : List Char) : Nat → List Char → List Char
  | _ + 1, [] => []
  | n + 1, _ :: rest => replaceSkip old new n rest
  | 0, [] => []
  | 0, c :: rest =>
    if old ≠ [] ∧ old.isPrefixOf (c :: rest) then
      new ++ replaceSkip old new (old.length - 1) rest
    else
      c :: replaceSkip old new 0 rest

/-- Python `str.replace(old, new)` (all non-overlapping occurrences, left to
right; an empty pattern inserts `new` around every character). -/
def strReplace (s old new : List Char) : List Char :=
  if old = [] then new ++ s.flatMap (fun c => c :: new)
  else replaceSkip old new 0 s

/-- The `except KeyError` fallback of `Prompt.format` (store.py lines 33-37):
sequentially replace `"{key}"` by the stringified value, in keyword order. -/
def partialFormat (text : List Char) (kwargs : List (String × String)) : List Char :=
  kwargs.foldl
    (fun result kv => strReplace result ('{' :: kv.1.data ++ ['}']) kv.2.data)
    text

/-! ## Python string comparison and `sorted` -/

/-- Python's `<=` on strings: lexicographic comparison by code point. -/
def lexLe : List Char → List Char → Bool
  | [], _ => true
  | _ :: _, [] => false
  | a :: as, b :: bs =>
    if a.toNat < b.toNat then true
    else if a.toNat = b.toNat then lexLe as bs
    else false

theorem lexLe_trans {a b c : List Char}
    (hab : lexLe a b = true) (hbc : lexLe b c = true) : lexLe a c = true := by
  induction a generalizing b c with
  | nil => simp [lexLe]
  | cons x xs ih =>
    cases b with
    | nil => simp [lexLe] at hab
    | cons y ys =>
      cases c with
      | nil => simp [lexLe] at hbc
      | cons z zs =>
        simp only [lexLe] at hab hbc ⊢
        split_ifs at hab hbc ⊢ <;> first
          | rfl
          | omega
          | (exact ih hab hbc)
          | (exact absurd hab (by simp))
          | (exact absurd hbc (by simp))

theorem lexLe_total (a b : List Char) : lexLe a b = true ∨ lexLe b a = true := by
  induction a generalizing b with
  | nil => left; simp [lexLe]
  | cons x xs ih =>
    cases b with
    | nil => right; simp [lexLe]
    | cons y ys =>
      simp only [lexLe]
      rcases Nat.lt_trichotomy x.toNat y.toNat with h | h | h
      · left; simp [h]
      · rcases ih ys with h' | h' <;> [left; right] <;> simp [h, h']
      · right; simp [h, Nat.lt_asymm h]

/-- Python's `<=` on strings as a proposition. -/
def strLe (a b : String) : Prop := lexLe a.data b.data = true

instance : DecidableRel strLe := fun a b =>
  inferInstanceAs (Decidable (lexLe a.data b.data = true))

instance : IsTotal String strLe := ⟨fun a b => lexLe_total a.data b.data⟩

instance : IsTrans String strLe := ⟨fun _ _ _ => lexLe_trans⟩

/-- Python `sorted` on a list of strings (by code point). -/
def pySorted (l : List String) : List String := l.insertionSort strLe

/-! ## The prompt store (`store.py`) -/

/-- A prompt record (store.py `Prompt`, lines 15-23).  The field values come
straight from the parsed JSON file (Python does not enforce the annotated
types), so they are `JValue`s. -/
structure Prompt where
  key : String
  text : JValue
  «variables» : JValue
  source : JValue
  notes : JValue
deriving Repr

/-- `Prompt.format` (store.py lines 25-37).  With no keyword arguments the
text is returned as is; otherwise `text.format(**kwargs)` runs (raising
`AttributeError` when `text` is not a string); a `KeyError` is caught and
answered with the sequential-replacement fallback; any other exception
propagates. -/
def Prompt.format (p : Prompt) (kwargs : List (String × String)) :
    Except PyExc JValue :=
  if kwargs.isEmpty then .ok p.text
  else
    match p.text with
    | .str t =>
      match doMarkup kwargs t.data with
      | .ok out => .ok (.str (String.mk out))
      | .error (.keyError _) => .ok (.str (String.mk (partialFormat t.data kwargs)))
      | .error e => .error e
    | _ => .error .attributeError

/-- The mutable state of a `PromptStore`: the key-to-record mapping
(`_prompts`, an insertion-ordered dict) and the version (`_version`). -/
structure StoreState where
  prompts : List (String × Prompt)
  version : JValue
deriving Repr

/-- A freshly constructed store: empty mapping, version `"1.0"`
(store.py lines 64-66). -/
def initialStore : StoreState := { prompts := [], version := .str "1.0" }

/-- Building one `Prompt` from its parsed object (store.py lines 98-104):
each field is `prompt_data.get(...)` with the defaults of the source. -/
def mkPrompt (key : String) (po : List (String × JValue)) : Prompt :=
  { key := key
    text := pyDictGet po "text" (.str "")
    «variables» := pyDictGet po "variables" (.arr [])
    source := pyDictGet po "source" (.str "bundled")
    notes := pyDictGet po "notes" (.str "") }

/-- The `for key, prompt_data in prompts.items()` loop of `_load`
(store.py lines 97-104): each iteration assigns into `self._prompts`; a
prompt value that is not an object raises `AttributeError` at
`prompt_data.get`, aborting the loop and leaving the partially filled
mapping (returned in the `error` case). -/
def buildPrompts :
    List (String × JValue) → List (String × Prompt) →
    Except (List (String × Prompt)) (List (String × Prompt))
  | [], acc => .ok acc
  | (k, v) :: rest, acc =>
    match v with
    | .obj po => buildPrompts rest (dictInsert acc k (mkPrompt k po))
    | _ => .error acc

/-- What the prompts file looks like to `_load`: absent, unreadable
(`open` raises `OSError`), present but not valid JSON (`json.load` raises),
or parsed to a `JValue`. -/
inductive FileState where
  | missing : FileState
  | unreadable : FileState
  | parseError : FileState
  | parsed (data : JValue) : FileState

/-- `PromptStore._load` (store.py lines 80-109) as a transition on the store
state.  A missing file returns early; an `open`/`json.load` failure is caught
by the `except` before any mutation; if the parsed value is not an object,
`data.get` raises before any mutation; otherwise `_version` is assigned,
`self._prompts.clear()` runs, and the loop fills the mapping — an
`AttributeError` on a non-object `"prompts"` value (at `.items()`) or on a
non-object prompt entry is caught only after the clear. -/
def loadStep (file : FileState) (s : StoreState) : StoreState :=
  match file with
  | .missing => s
  | .unreadable => s
  | .parseError => s
  | .parsed data =>
    match data with
    | .obj fields =>
      let version := pyDictGet fields "version" (.str "1.0")
      match pyDictGet fields "prompts" (.obj []) with
      | .obj items =>
        match buildPrompts items [] with
        | .ok m => { prompts := m, version := version }
        | .error partRes => { prompts := partRes, version := version }
      | _ => { prompts := [], version := version }
    | _ => s

/-- `PromptStore.get` (store.py lines 111-113). -/
def storeGet (s : StoreState) (key : String) : Option Prompt :=
  (s.prompts.find? (fun p => p.1 == key)).map Prod.snd

/-- `PromptStore.list_keys` (store.py lines 115-117): `sorted(dict.keys())`. -/
def listKeys (s : StoreState) : List String :=
  pySorted (s.prompts.map Prod.fst)

/-- `PromptStore.has` / `__contains__` (store.py lines 119-121, 141-143). -/
def hasKey (s : StoreState) (key : String) : Bool :=
  (s.prompts.find? (fun p => p.1 == key)).isSome

/-- `PromptStore.__len__` (store.py lines 137-139). -/
def storeLen (s : StoreState) : Nat := s.prompts.length

/-- The facade `get_prompt` (store.py lines 189-209): empty string for a
missing key (a `Prompt` instance is always truthy), otherwise
`prompt.format(**format_kwargs)`. -/
def get_prompt (s : StoreState) (key : String)
    (kwargs : List (String × String)) : Except PyExc JValue :=
  match storeGet s key with
  | none => .ok (.str "")
  | some p => p.format kwargs

/-! ## SHA-256 (`hashlib.sha256(text.encode()).hexdigest()`) -/

/-- Truncate to a 32-bit word. -/
def w32 (n : Nat) : Nat := n % 4294967296

/-- Right rotation of a 32-bit word. -/
def rotr (n x : Nat) : Nat := w32 ((x >>> n) ||| (x <<< (32 - n)))

def ssig0 (x : Nat) : Nat := rotr 7 x ^^^ rotr 18 x ^^^ (x >>> 3)

def ssig1 (x : Nat) : Nat := rotr 17 x ^^^ rotr 19 x ^^^ (x >>> 10)

def bsig0 (x : Nat) : Nat := rotr 2 x ^^^ rotr 13 x ^^^ rotr 22 x

def bsig1 (x : Nat) : Nat := rotr 6 x ^^^ rotr 11 x ^^^ rotr 25 x

/-- The SHA-256 round constants (decimal). -/
def sha256K : List Nat :=
  [1116352408, 1899447441, 3049323471, 3921009573, 961987163,
   1508970993, 2453635748, 2870763221, 3624381080, 310598401,
   607225278, 1426881987, 1925078388, 2162078206, 2614888103,
   3248222580, 3835390401, 4022224774, 264347078, 604807628,
   770255983, 1249150122, 1555081692, 1996064986, 2554220882,
   2821834349, 2952996808, 3210313671, 3336571891, 3584528711,
   113926993, 338241895, 666307205, 773529912, 1294757372,
   1396182291, 1695183700, 1986661051, 2177026350, 2456956037,
   2730485921, 2820302411, 3259730800, 3345764771, 3516065817,
   3600352804, 4094571909, 275423344, 430227734, 506948616,
   659060556, 883997877, 958139571, 1322822218, 1537002063,
   1747873779, 1955562222, 2024104815, 2227730452, 2361852424,
   2428436474, 2756734187, 3204031479, 3329325298]

/-- The SHA-256 initial hash state (decimal). -/
def sha256H0 : List Nat :=
  [1779033703, 3144134277, 1013904242, 2773480762, 1359893119,
   2600822924, 528734635, 1541459225]

/-- UTF-8 encoding of one code point (as in Python `str.encode()`). -/
def utf8Bytes (c : Char) : List Nat :=
  let n := c.toNat
  if n < 0x80 then [n]
  else if n < 0x800 then
    [0xC0 ||| (n >>> 6), 0x80 ||| (n &&& 0x3F)]
  else if n < 0x10000 then
    [0xE0 ||| (n >>> 12), 0x80 ||| ((n >>> 6) &&& 0x3F), 0x80 ||| (n &&& 0x3F)]
  else
    [0xF0 ||| (n >>> 18), 0x80 ||| ((n >>> 12) &&& 0x3F),
     0x80 ||| ((n >>> 6) &&& 0x3F), 0x80 ||| (n &&& 0x3F)]

/-- UTF-8 bytes of a string (Python `text.encode()`). -/
def strBytes (s : String) : List Nat := s.data.flatMap utf8Bytes

/-- SHA-256 message padding: `0x80`, zeros to 56 mod 64, 8-byte big-endian
bit length. -/
def sha256Pad (msg : List Nat) : List Nat :=
  let L := msg.length
  let z := (119 - (L % 64)) % 64
  let bits := 8 * L
  msg ++ [0x80] ++ List.replicate z 0 ++
    [(bits >>> 56) % 256, (bits >>> 48) % 256, (bits >>> 40) % 256,
     (bits >>> 32) % 256, (bits >>> 24) % 256, (bits >>> 16) % 256,
     (bits >>> 8) % 256, bits % 256]

/-- Big-endian 4-byte groups to 32-bit words. -/
def bytesToWords : List Nat → List Nat
  | b0 :: b1 :: b2 :: b3 :: rest =>
    ((b0 <<< 24) ||| (b1 <<< 16) ||| (b2 <<< 8) ||| b3) :: bytesToWords rest
  | _ => []

/-- Extend the 16-word message schedule by `n` further words. -/
def extendW : Nat → List Nat → List Nat
  | 0, ws => ws
  | n + 1, ws =>
    extendW n (ws ++ [w32 (ssig1 (ws.getD (ws.length - 2) 0) +
      ws.getD (ws.length - 7) 0 + ssig0 (ws.getD (ws.length - 15) 0) +
      ws.getD (ws.length - 16) 0)])

/-- One SHA-256 compression round on the 8-word working state. -/
def sha256Round (state : List Nat) (k w : Nat) : List Nat :=
  match state with
  | [a, b, c, d, e, f, g, h] =>
    let temp1 := w32 (h + bsig1 e + ((e &&& f) ^^^ ((e ^^^ 0xFFFFFFFF) &&& g)) + k + w)
    let temp2 := w32 (bsig0 a + ((a &&& b) ^^^ (a &&& c) ^^^ (b &&& c)))
    [w32 (temp1 + temp2), a, b, c, w32 (d + temp1), e, f, g]
  | st => st

/-- Compress one 64-byte chunk into the hash state. -/
def sha256Compress (hs : List Nat) (chunk : List Nat) : List Nat :=
  let ws := extendW 48 (bytesToWords chunk)
  let st := (sha256K.zip ws).foldl (fun st kw => sha256Round st kw.1 kw.2) hs
  List.zipWith (fun x y => w32 (x + y)) hs st

/-- Fold the compression over all 64-byte chunks (`fuel` bounds the number of
iterations; it is called with the byte count, which always suffices). -/
def sha256Loop : Nat → List Nat → List Nat → List Nat
  | 0, hs, _ => hs
  | _ + 1, hs, [] => hs
  | fuel + 1, hs, bytes =>
    sha256Loop fuel (sha256Compress hs (bytes.take 64)) (bytes.drop 64)

def hexDigit (n : Nat) : Char :=
  if n < 10 then Char.ofNat (48 + n) else Char.ofNat (87 + n)

/-- Lowercase hexadecimal rendering of one 32-bit word. -/
def wordHex (w : Nat) : List Char :=
  [hexDigit ((w >>> 28) &&& 15), hexDigit ((w >>> 24) &&& 15),
   hexDigit ((w >>> 20) &&& 15), hexDigit ((w >>> 16) &&& 15),
   hexDigit ((w >>> 12) &&& 15), hexDigit ((w >>> 8) &&& 15),
   hexDigit ((w >>> 4) &&& 15), hexDigit (w &&& 15)]

/-- `hashlib.sha256(s.encode()).hexdigest()`. -/
def sha256hex (s : String) : String :=
  let bytes := sha256Pad (strBytes s)
  String.mk ((sha256Loop bytes.length sha256H0 bytes).flatMap wordHex)

/-- `_hash_prompt` (observer.py lines 259-261): the first 12 hex characters
of the SHA-256 digest of the text. -/
def hashPrompt (text : String) : String := (sha256hex text).take 12

/-! ## `json.loads`

Python's strict JSON decoder, modelled directly: values are `null`, `true`,
`false`, numbers (no leading zeros; optional fraction and exponent), strings
with the standard escapes (`\uXXXX` including surrogate pairs; a lone
surrogate or out-of-range code becomes the null character, where Python
would keep a lone surrogate), arrays and objects (duplicate keys: last one
wins, as in Python).  `NaN`/`Infinity` extensions are not modelled.  Any
failure is `JSONDecodeError`. -/

def isJsonWs (c : Char) : Bool := c = ' ' || c = '\t' || c = '\n' || c = '\r'

def skipWs : List Char → List Char
  | c :: rest => if isJsonWs c then skipWs rest else c :: rest
  | [] => []

def hexVal (c : Char) : Option Nat :=
  if '0' ≤ c ∧ c ≤ '9' then some (c.toNat - 48)
  else if 'a' ≤ c ∧ c ≤ 'f' then some (c.toNat - 87)
  else if 'A' ≤ c ∧ c ≤ 'F' then some (c.toNat - 70)
  else none

/-- Parse the remainder of a JSON string literal (after the opening quote);
`fuel` bounds the steps and is called with more than the input length. -/
def jparseString : Nat → List Char → List Char → Except Unit (String × List Char)
  | 0, _, _ => .error ()
  | _ + 1, _, [] => .error ()
  | fuel + 1, acc, c :: rest =>
    if c = '"' then .ok (String.mk acc.reverse, rest)
    else if c = '\\' then
      match rest with
      | [] => .error ()
      | e :: rest2 =>
        if e = '"' then jparseString fuel ('"' :: acc) rest2
        else if e = '\\' then jparseString fuel ('\\' :: acc) rest2
        else if e = '/' then jparseString fuel ('/' :: acc) rest2
        else if e = 'b' then jparseString fuel ('\x08' :: acc) rest2
        else if e = 'f' then jparseString fuel ('\x0c' :: acc) rest2
        else if e = 'n' then jparseString fuel ('\n' :: acc) rest2
        else if e = 'r' then jparseString fuel ('\r' :: acc) rest2
        else if e = 't' then jparseString fuel ('\t' :: acc) rest2
        else if e = 'u' then
          match rest2 with
          | h1 :: h2 :: h3 :: h4 :: rest3 =>
            match hexVal h1, hexVal h2, hexVal h3, hexVal h4 with
            | some a, some b, some c', some d =>
              let n := ((a * 16 + b) * 16 + c') * 16 + d
              if 0xD800 ≤ n ∧ n < 0xDC00 then
                match rest3 with
                | '\\' :: 'u' :: g1 :: g2 :: g3 :: g4 :: rest4 =>
                  match hexVal g1, hexVal g2, hexVal g3, hexVal g4 with
                  | some a', some b', some c'', some d' =>
                    let m := ((a' * 16 + b') * 16 + c'') * 16 + d'
                    if 0xDC00 ≤ m ∧ m < 0xE000 then
                      jparseString fuel
                        (Char.ofNat (0x10000 + (n - 0xD800) * 1024 + (m - 0xDC00)) :: acc)
                        rest4
                    else jparseString fuel (Char.ofNat m :: Char.ofNat n :: acc) rest4
                  | _, _, _, _ => .error ()
                | _ => jparseString fuel (Char.ofNat n :: acc) rest3
              else jparseString fuel (Char.ofNat n :: acc) rest3
            | _, _, _, _ => .error ()
          | _ => .error ()
        else .error ()
    else if c.toNat < 0x20 then .error ()
    else jparseString fuel (c :: acc) rest

def digitsToNat (ds : List Char) : Nat :=
  ds.foldl (fun n c => 10 * n + (c.toNat - 48)) 0

/-- Parse a JSON number starting at the current position. -/
def jparseNumber (cs : List Char) : Except Unit (ℚ × List Char) :=
  let (neg, cs1) := match cs with | '-' :: t => (true, t) | _ => (false, cs)
  let ds := cs1.takeWhile Char.isDigit
  let cs2 := cs1.dropWhile Char.isDigit
  if ds.isEmpty then .error ()
  else if ds.length > 1 ∧ ds.head? = some '0' then .error ()
  else
    let step2 : Except Unit (List Char × List Char) :=
      match cs2 with
      | '.' :: t =>
        let fs := t.takeWhile Char.isDigit
        if fs.isEmpty then .error () else .ok (fs, t.dropWhile Char.isDigit)
      | _ => .ok ([], cs2)
    match step2 with
    | .error _ => .error ()
    | .ok (fs, cs3) =>
      let step3 : Except Unit (Bool × List Char × List Char) :=
        match cs3 with
        | 'e' :: t | 'E' :: t =>
          let (eneg, t') := match t with
            | '-' :: u => (true, u)
            | '+' :: u => (false, u)
            | _ => (false, t)
          let es := t'.takeWhile Char.isDigit
          if es.isEmpty then .error ()
          else .ok (eneg, es, t'.dropWhile Char.isDigit)
        | _ => .ok (false, [], cs3)
      match step3 with
      | .error _ => .error ()
      | .ok (eneg, es, cs4) =>
        let mag : ℚ :=
          if fs.isEmpty ∧ es.isEmpty then (digitsToNat ds : ℚ)
          else
            let mant : ℚ := (digitsToNat (ds ++ fs) : ℚ) / (10 ^ fs.length : ℚ)
            if eneg then mant / (10 ^ digitsToNat es : ℚ)
            else mant * (10 ^ digitsToNat es : ℚ)
        .ok (if neg then -mag else mag, cs4)

mutual

/-- Parse one JSON value (leading whitespace allowed); `fuel` bounds the
recursion depth and is called with more than the input length. -/
def jparseVal : Nat → List Char → Except Unit (JValue × List Char)
  | 0, _ => .error ()
  | fuel + 1, cs =>
    match skipWs cs with
    | [] => .error ()
    | c :: rest =>
      if c = 'n' then
        match rest with
        | 'u' :: 'l' :: 'l' :: r => .ok (.null, r)
        | _ => .error ()
      else if c = 't' then
        match rest with
        | 'r' :: 'u' :: 'e' :: r => .ok (.bool true, r)
        | _ => .error ()
      else if c = 'f' then
        match rest with
        | 'a' :: 'l' :: 's' :: 'e' :: r => .ok (.bool false, r)
        | _ => .error ()
      else if c = '"' then
        match jparseString (rest.length + 1) [] rest with
        | .ok (s, r) => .ok (.str s, r)
        | .error _ => .error ()
      else if c = '[' then
        match skipWs rest with
        | ']' :: r => .ok (.arr [], r)
        | r => jparseArr fuel [] r
      else if c = '{' then
        match skipWs rest with
        | '}' :: r => .ok (.obj [], r)
        | r => jparseObj fuel [] r
      else if c = '-' || c.isDigit then
        match jparseNumber (c :: rest) with
        | .ok (q, r) => .ok (.num q, r)
        | .error _ => .error ()
      else .error ()

/-- Parse the elements of a JSON array (after a first non-`]` position). -/
def jparseArr : Nat → List JValue → List Char → Except Unit (JValue × List Char)
  | 0, _, _ => .error ()
  | fuel + 1, acc, cs =>
    match jparseVal fuel cs with
    | .error _ => .error ()
    | .ok (v, r) =>
      match skipWs r with
      | ',' :: r2 => jparseArr fuel (v :: acc) r2
      | ']' :: r2 => .ok (.arr (v :: acc).reverse, r2)
      | _ => .error ()

/-- Parse the members of a JSON object (after a first non-`}` position);
duplicate keys overwrite, as in a Python dict. -/
def jparseObj : Nat → List (String × JValue) → List Char →
    Except Unit (JValue × List Char)
  | 0, _, _ => .error ()
  | fuel + 1, acc, cs =>
    match skipWs cs with
    | '"' :: r =>
      match jparseString (r.length + 1) [] r with
      | .error _ => .error ()
      | .ok (k, r2) =>
        match skipWs r2 with
        | ':' :: r3 =>
          match jparseVal fuel r3 with
          | .error _ => .error ()
          | .ok (v, r4) =>
            match skipWs r4 with
            | ',' :: r5 => jparseObj fuel (dictInsert acc k v) r5
            | '}' :: r5 => .ok (.obj (dictInsert acc k v), r5)
            | _ => .error ()
        | _ => .error ()
    | _ => .error ()

end

/-- `json.loads(s)`: parse one value, then only whitespace may remain. -/
def pyJsonLoads (s : String) : Except PyExc JValue :=
  match jparseVal (s.data.length + 1) s.data with
  | .error _ => .error .jsonDecodeError
  | .ok (v, rest) =>
    if (skipWs rest).isEmpty then .ok v else .error .jsonDecodeError

/-! ## The usage store (`observer.py`) -/

/-- A usage log entry as built by `log_usage` (observer.py `UsageLog`,
lines 56-70).  `variables_used` is the in-memory dict. -/
structure UsageLog where
  id : String
  timestamp : String
  prompt_key : String
  prompt_hash : String
  stage : String
  model : Option String
  session_id : Option String
  variables_used : List (String × JValue)
  success : Bool
  latency_ms : ℚ
  notes : Option String
deriving Repr

/-- One row of the `usage` table as stored (observer.py lines 86-98):
`variables_used` is serialized text (nullable), `success` an integer. -/
structure UsageRow where
  id : String
  timestamp : String
  prompt_key : String
  prompt_hash : String
  stage : String
  model : Option String
  session_id : Option String
  variables_used : Option String
  success : Int
  latency_ms : ℚ
  notes : Option String
deriving Repr

/-- Sorting relations used to model the SQL `ORDER BY` clauses. -/
def tsDesc (a b : UsageRow) : Prop := strLe b.timestamp a.timestamp

instance : DecidableRel tsDesc := fun a b =>
  inferInstanceAs (Decidable (strLe b.timestamp a.timestamp))

instance : IsTotal UsageRow tsDesc :=
  ⟨fun a b => lexLe_total b.timestamp.data a.timestamp.data⟩

instance : IsTrans UsageRow tsDesc := ⟨fun _ _ _ h h' => lexLe_trans h' h⟩

/-- The aggregate returned by `UsageStore.get_stats`
(observer.py lines 132-184). -/
structure Stats where
  prompt_key : String
  total_usage : Nat
  success_rate : ℚ
  avg_latency_ms : ℚ
  by_stage : List (String × Nat)
  recent : List (String × String × Option String × Int)
deriving Repr

def stageCountDesc (a b : String × Nat) : Prop := b.2 ≤ a.2

instance : DecidableRel stageCountDesc := fun a b =>
  inferInstanceAs (Decidable (b.2 ≤ a.2))

instance : IsTotal (String × Nat) stageCountDesc :=
  ⟨fun a b => (Nat.le_total b.2 a.2)⟩

instance : IsTrans (String × Nat) stageCountDesc :=
  ⟨fun _ _ _ h h' => Nat.le_trans h' h⟩

/-- `UsageStore.get_stats` (observer.py lines 132-184) over the stored rows:
`COUNT(*)`, `COUNT(... AND success = 1)`, `AVG(latency_ms) ... latency_ms > 0`
(`NULL`, turned into `0` by `or 0`, when no row qualifies), the per-stage
counts ordered by descending count, and the 10 most recent rows. -/
def getStats (rows : List UsageRow) (key : String) : Stats :=
  let mine := rows.filter (fun r => r.prompt_key == key)
  let total := mine.length
  let succ := (mine.filter (fun r => r.success == 1)).length
  let lat := (mine.filter (fun r => decide (0 < r.latency_ms))).map
    (fun r => r.latency_ms)
  let stageKeys := (mine.map (fun r => r.stage)).dedup
  { prompt_key := key
    total_usage := total
    success_rate := if total > 0 then (succ : ℚ) / (total : ℚ) * 100 else 0
    avg_latency_ms := if lat.isEmpty then 0 else lat.sum / (lat.length : ℚ)
    by_stage := (stageKeys.map
      (fun st => (st, (mine.filter (fun r => r.stage == st)).length))).insertionSort
      stageCountDesc
    recent := ((mine.insertionSort tsDesc).take 10).map
      (fun r => (r.timestamp, r.stage, r.model, r.success)) }

/-- A row as returned by `UsageStore.get_recent`: `variables_used` has been
deserialized. -/
structure RecentRow where
  id : String
  timestamp : String
  prompt_key : String
  prompt_hash : String
  stage : String
  model : Option String
  session_id : Option String
  variables_used : JValue
  success : Int
  latency_ms : ℚ
  notes : Option String
deriving Repr

/-- The `WHERE` clause built by `get_recent` (observer.py lines 197-208):
a filter is applied only when the argument is truthy (neither `None` nor the
empty string); `session_id = ?` never matches a `NULL` column. -/
def rowMatches (pk st sid : Option String) (r : UsageRow) : Bool :=
  (match pk with
   | none => true
   | some s => if s == "" then true else r.prompt_key == s) &&
  (match st with
   | none => true
   | some s => if s == "" then true else r.stage == s) &&
  (match sid with
   | none => true
   | some s => if s == "" then true else r.session_id == some s)

/-- `json.loads(entry["variables_used"] or "{}")` (observer.py line 218):
a `NULL` or empty stored value falls back to `"{}"`; anything else is parsed
and a parse failure raises. -/
def loadVars (v : Option String) : Except PyExc JValue :=
  let s := match v with
    | none => "\x7b\x7d"
    | some s => if s == "" then "\x7b\x7d" else s
  pyJsonLoads s

def toRecentRow (r : UsageRow) : Except PyExc RecentRow :=
  match loadVars r.variables_used with
  | .error e => .error e
  | .ok v =>
    .ok { id := r.id, timestamp := r.timestamp, prompt_key := r.prompt_key
          prompt_hash := r.prompt_hash, stage := r.stage, model := r.model
          session_id := r.session_id, variables_used := v
          success := r.success, latency_ms := r.latency_ms, notes := r.notes }

/-- The result-building loop of `get_recent` (observer.py lines 215-219):
append the deserialized rows one by one; the first failure raises. -/
def mapExcept {α β : Type} (f : α → Except PyExc β) :
    List α → Except PyExc (List β)
  | [] => .ok []
  | a :: rest =>
    match f a with
    | .error e => .error e
    | .ok b =>
      match mapExcept f rest with
      | .error e => .error e
      | .ok bs => .ok (b :: bs)

/-- `UsageStore.get_recent` (observer.py lines 186-221): filter, order by
`timestamp` descending, `LIMIT`, then deserialize each row's
`variables_used` (the loop raises at the first undecodable value). -/
def getRecent (rows : List UsageRow) (limit : Nat)
    (pk st sid : Option String) : Except PyExc (List RecentRow) :=
  mapExcept toRecentRow
    (((rows.filter (rowMatches pk st sid)).insertionSort tsDesc).take limit)

/-- One aggregate of `UsageStore.get_top_prompts`
(observer.py lines 223-244). -/
structure TopRow where
  prompt_key : String
  usage_count : Nat
  success_count : Nat
  avg_latency : ℚ
  last_used : String
deriving Repr

def countDesc (a b : TopRow) : Prop := b.usage_count ≤ a.usage_count

instance : DecidableRel countDesc := fun a b =>
  inferInstanceAs (Decidable (b.usage_count ≤ a.usage_count))

instance : IsTotal TopRow countDesc := ⟨fun a b => Nat.le_total _ _⟩

instance : IsTrans TopRow countDesc := ⟨fun _ _ _ h h' => Nat.le_trans h' h⟩

/-- `MAX(timestamp)` over a group (string comparison, seed below any
timestamp). -/
def maxTimestamp (l : List String) : String :=
  l.foldl (fun a b => if lexLe a.data b.data then b else a) ""

/-- The aggregate row of `get_top_prompts` for one `prompt_key`:
`COUNT(*)`, `SUM(CASE WHEN success = 1 THEN 1 ELSE 0 END)`,
`AVG(latency_ms)` over all of the group's rows, `MAX(timestamp)`. -/
def topAgg (rows : List UsageRow) (k : String) : TopRow :=
  let g := rows.filter (fun r => r.prompt_key == k)
  { prompt_key := k
    usage_count := g.length
    success_count := (g.filter (fun r => r.success == 1)).length
    avg_latency := if g.isEmpty then 0
      else (g.map (fun r => r.latency_ms)).sum / (g.length : ℚ)
    last_used := maxTimestamp (g.map (fun r => r.timestamp)) }

/-- `UsageStore.get_top_prompts` (observer.py lines 223-244): group by
`prompt_key`, order by usage count descending, `LIMIT`. -/
def getTopPrompts (rows : List UsageRow) (limit : Nat) : List TopRow :=
  ((((rows.map (fun r => r.prompt_key)).dedup).map
    (topAgg rows)).insertionSort countDesc).take limit

/-! ## The facade `log_usage` (observer.py lines 299-360) -/

/-- Lines 332-335 of observer.py: the effective prompt text — the caller's,
or the active store's unformatted template via `get_prompt` (which yields the
empty string for a missing key). -/
def resolvePromptText (store : StoreState) (prompt_key : String)
    (prompt_text : Option String) : Except PyExc JValue :=
  match prompt_text with
  | some t => .ok (.str t)
  | none => get_prompt store prompt_key []

/-- Line 337 of observer.py:
`_hash_prompt(prompt_text) if prompt_text else "unknown"` — hash a truthy
string, sentinel for a falsy value, `AttributeError` at `.encode()` for a
truthy non-string. -/
def hashEffective (ptext : JValue) : Except PyExc String :=
  if ptext.truthy then
    match ptext with
    | .str t => .ok (hashPrompt t)
    | _ => .error .attributeError
  else .ok "unknown"

/-- Lines 329-351 of observer.py: generate the id, resolve the prompt text
(from the active store when the caller supplied none), hash it (the sentinel
`"unknown"` for a falsy text; a truthy non-string text raises
`AttributeError` at `text.encode()`), and build the entry. -/
def buildUsageEntry (store : StoreState) (logId now : String)
    (prompt_key stage : String) (prompt_text : Option String)
    (model session_id : Option String)
    (variables_used : Option (List (String × JValue)))
    (success : Bool) (latency_ms : ℚ) (notes : Option String) :
    Except PyExc UsageLog :=
  match resolvePromptText store prompt_key prompt_text with
  | .error e => .error e
  | .ok ptext =>
    match hashEffective ptext with
    | .error e => .error e
    | .ok prompt_hash =>
      .ok { id := logId, timestamp := now, prompt_key := prompt_key
            prompt_hash := prompt_hash, stage := stage, model := model
            session_id := session_id
            variables_used := variables_used.getD []
            success := success, latency_ms := latency_ms, notes := notes }

/-- The facade `log_usage` (observer.py lines 299-360).  `persist` stands for
the `try` block (the store's `log` insert and the fire-and-forget Langfuse
hand-off); its failure is caught and logged, and the id generated at the top
is returned either way.  Failures before the `try` block propagate. -/
def log_usage (store : StoreState) (persist : UsageLog → Except PyExc Unit)
    (logId now : String) (prompt_key stage : String)
    (prompt_text : Option String) (model session_id : Option String)
    (variables_used : Option (List (String × JValue)))
    (success : Bool) (latency_ms : ℚ) (notes : Option String) :
    Except PyExc String :=
  match buildUsageEntry store logId now prompt_key stage prompt_text model
    session_id variables_used success latency_ms notes with
  | .error e => .error e
  | .ok entry =>
    match persist entry with
    | .ok _ => .ok logId
    | .error _ => .ok logId

/-! ## Token-level view of template strings

To reason about `Prompt.format` on whole classes of templates, a template is
presented as a list of tokens: literal segments (free of braces) and
replacement fields `{name}` with plain names.  `render` spells such a list
back as the template text; every claim about formatting is then proved for
all templates of this shape. -/

inductive Tok where
  | lit (s : List Char) : Tok
  | hole (name : List Char) : Tok
deriving Repr, DecidableEq

/-- The template text a token list denotes. -/
def render : List Tok → List Char
  | [] => []
  | .lit s :: rest => s ++ render rest
  | .hole n :: rest => '{' :: (n ++ '}' :: render rest)

/-- A segment with no brace characters. -/
def braceFreeB (s : List Char) : Bool :=
  s.all (fun c => c != '{' && c != '}')

/-- A plain replacement-field name: nonempty, not all digits (those are
positional), and free of the characters that trigger nesting, conversion,
format specs, attribute access or indexing in CPython. -/
def plainNameB (n : List Char) : Bool :=
  !n.isEmpty && !(n.all Char.isDigit) &&
    n.all (fun c =>
      c != '{' && c != '}' && c != '!' && c != ':' && c != '.' &&
      c != '[' && c != ']')

def wfTokB : Tok → Bool
  | .lit s => braceFreeB s
  | .hole n => plainNameB n

/-- A well-formed token list: brace-free literals, plain field names. -/
def wfToksB (toks : List Tok) : Bool := toks.all wfTokB

/-- Parallel substitution: a hole whose name has a supplied value becomes the
value as a literal; every other token is unchanged. -/
def substTok (kwargs : List (String × String)) : Tok → Tok
  | .lit s => .lit s
  | .hole n =>
    match lookupKw kwargs (String.mk n) with
    | some v => .lit v.data
    | none => .hole n

/-- Substitution of one key (what a single `str.replace` pass performs at the
token level). -/
def substOne (k v : List Char) : Tok → Tok
  | .hole n => if n = k then .lit v else .hole n
  | t => t

/-- The sequential substitution the fallback loop performs, in keyword
order. -/
def substHoles (kwargs : List (String × String)) (toks : List Tok) : List Tok :=
  kwargs.foldl (fun ts kv => ts.map (substOne kv.1.data kv.2.data)) toks

theorem braceFreeB_cons {c : Char} {s : List Char}
    (h : braceFreeB (c :: s) = true) :
    c ≠ '{' ∧ c ≠ '}' ∧ braceFreeB s = true := by
  simp only [braceFreeB, List.all_cons, Bool.and_eq_true, bne_iff_ne, ne_eq] at h ⊢
  exact ⟨h.1.1, h.1.2, h.2⟩

theorem fmtScan_lit_append {kwargs : List (String × String)} {s t : List Char}
    (hs : braceFreeB s = true) :
    fmtScan kwargs none (s ++ t) =
      match fmtScan kwargs none t with
      | .ok out => .ok (s ++ out)
      | .error e => .error e := by
  induction s with
  | nil =>
    simp only [List.nil_append]
    cases fmtScan kwargs none t <;> rfl
  | cons c s' ih =>
    obtain ⟨hc1, hc2, hs'⟩ := braceFreeB_cons hs
    rw [List.cons_append, fmtScan.eq_def]
    simp only [if_neg hc1, if_neg hc2]
    rw [ih hs']
    cases fmtScan kwargs none t <;> rfl

theorem fmtScan_field {kwargs : List (String × String)}
    {n' : List Char} (acc : List Char) {t : List Char}
    (hn' : braceFreeB n' = true) :
    fmtScan kwargs (some acc) (n' ++ '}' :: t) =
      (let f := acc.reverse ++ n'
       if f.all Char.isDigit then .error .indexError
       else
         match lookupKw kwargs (String.mk f) with
         | none => .error (.keyError (String.mk f))
         | some v =>
           match fmtScan kwargs none t with
           | .ok out => .ok (v.data ++ out)
           | .error e => .error e) := by
  induction n' generalizing acc with
  | nil =>
    rw [List.nil_append, fmtScan.eq_def]
    simp only [List.append_nil]
    rfl
  | cons d n'' ih =>
    obtain ⟨hd1, hd2, hn''⟩ := braceFreeB_cons hn'
    rw [List.cons_append, fmtScan.eq_def]
    simp only [if_neg hd1, if_neg hd2, List.append_eq]
    rw [ih (d :: acc) hn'']
    simp only [List.reverse_cons, List.append_assoc, List.singleton_append]

theorem fmtScan_hole {kwargs : List (String × String)} {n : List Char}
    {t : List Char} (hn : plainNameB n = true) :
    fmtScan kwargs none ('{' :: (n ++ '}' :: t)) =
      (match lookupKw kwargs (String.mk n) with
       | none => .error (.keyError (String.mk n))
       | some v =>
         match fmtScan kwargs none t with
         | .ok out => .ok (v.data ++ out)
         | .error e => .error e) := by
  obtain ⟨hne, hdig, hfree⟩ :
      n.isEmpty = false ∧ n.all Char.isDigit = false ∧
        (∀ c ∈ n, c ≠ '{' ∧ c ≠ '}') := by
    simp only [plainNameB, Bool.and_eq_true, Bool.not_eq_true', List.all_eq_true,
      Bool.and_eq_true, bne_iff_ne, ne_eq] at hn
    exact ⟨hn.1.1, hn.1.2, fun c hc => ⟨(hn.2 c hc).1.1.1.1.1.1, (hn.2 c hc).1.1.1.1.1.2⟩⟩
  cases n with
  | nil => simp at hne
  | cons n0 n1 =>
    have h0 := hfree n0 (List.mem_cons_self _ _)
    have hn1free : braceFreeB n1 = true := by
      simp only [braceFreeB, List.all_eq_true, Bool.and_eq_true, bne_iff_ne, ne_eq]
      exact fun c hc => (hfree c (List.mem_cons_of_mem _ hc))
    rw [List.cons_append, fmtScan.eq_def]
    simp only [if_pos rfl, ite_true, if_neg h0.1, if_neg h0.2, List.append_eq]
    rw [fmtScan_field [n0] hn1free]
    simp only [List.reverse_singleton, List.singleton_append]
    rw [if_neg (by simp [hdig])]

theorem wfToksB_cons {t : Tok} {toks : List Tok}
    (h : wfToksB (t :: toks) = true) :
    wfTokB t = true ∧ wfToksB toks = true := by
  simpa [wfToksB] using h

/-- `str.format` on a rendered well-formed template: it either substitutes
every hole (all names supplied) or raises `KeyError` for a missing name. -/
theorem doMarkup_render {kwargs : List (String × String)} {toks : List Tok}
    (h : wfToksB toks = true) :
    doMarkup kwargs (render toks) =
        .ok (render (toks.map (substTok kwargs)))
    ∨ ∃ n, Tok.hole n ∈ toks ∧ lookupKw kwargs (String.mk n) = none ∧
        doMarkup kwargs (render toks) = .error (.keyError (String.mk n)) := by
  induction toks with
  | nil => left; rfl
  | cons tk rest ih =>
    obtain ⟨ht, hrest⟩ := wfToksB_cons h
    cases tk with
    | lit s =>
      have key := @fmtScan_lit_append kwargs s (render rest) ht
      rcases ih hrest with hok | ⟨n, hn, hlook, herr⟩
      · left
        show fmtScan kwargs none (s ++ render rest) = _
        rw [key]
        rw [show doMarkup kwargs (render rest) = fmtScan kwargs none (render rest)
          from rfl] at hok
        rw [hok]
        rfl
      · right
        refine ⟨n, List.mem_cons_of_mem _ hn, hlook, ?_⟩
        show fmtScan kwargs none (s ++ render rest) = _
        rw [key]
        rw [show doMarkup kwargs (render rest) = fmtScan kwargs none (render rest)
          from rfl] at herr
        rw [herr]
    | hole n =>
      have key := @fmtScan_hole kwargs n (render rest) ht
      cases hl : lookupKw kwargs (String.mk n) with
      | none =>
        right
        refine ⟨n, List.mem_cons_self _ _, hl, ?_⟩
        show fmtScan kwargs none ('{' :: (n ++ '}' :: render rest)) = _
        rw [key, hl]
      | some v =>
        rcases ih hrest with hok | ⟨n', hn', hlook', herr'⟩
        · left
          show fmtScan kwargs none ('{' :: (n ++ '}' :: render rest)) = _
          rw [key, hl]
          rw [show doMarkup kwargs (render rest) = fmtScan kwargs none (render rest)
            from rfl] at hok
          rw [hok]
          show _ = Except.ok (render (substTok kwargs (.hole n) :: _))
          rw [show substTok kwargs (.hole n) = .lit v.data by
            simp [substTok, hl]]
          rfl
        · right
          refine ⟨n', List.mem_cons_of_mem _ hn', hlook', ?_⟩
          show fmtScan kwargs none ('{' :: (n ++ '}' :: render rest)) = _
          rw [key, hl]
          rw [show doMarkup kwargs (render rest) = fmtScan kwargs none (render rest)
            from rfl] at herr'
          rw [herr']

theorem replaceSkip_skip {old new : List Char} (l t : List Char) :
    replaceSkip old new l.length (l ++ t) = replaceSkip old new 0 t := by
  induction l with
  | nil => rfl
  | cons c l' ih =>
    show replaceSkip old new (l'.length + 1) (c :: (l' ++ t)) = _
    rw [replaceSkip, ih]

theorem replaceSkip_lit {k' new : List Char} {s t : List Char}
    (hs : braceFreeB s = true) :
    replaceSkip ('{' :: k') new 0 (s ++ t) =
      s ++ replaceSkip ('{' :: k') new 0 t := by
  induction s with
  | nil => rfl
  | cons c s' ih =>
    obtain ⟨hc1, _, hs'⟩ := braceFreeB_cons hs
    rw [List.cons_append, replaceSkip]
    rw [if_neg (fun hco => by
      have := hco.2
      simp only [List.isPrefixOf, Bool.and_eq_true, beq_iff_eq] at this
      exact hc1 this.1.symm)]
    rw [ih hs']
    rfl

theorem plainNameB_braceFree {n : List Char} (h : plainNameB n = true) :
    braceFreeB n = true := by
  simp only [plainNameB, Bool.and_eq_true, List.all_eq_true, Bool.and_eq_true,
    bne_iff_ne, ne_eq] at h
  simp only [braceFreeB, List.all_eq_true, Bool.and_eq_true, bne_iff_ne, ne_eq]
  exact fun c hc => ⟨(h.2 c hc).1.1.1.1.1.1, (h.2 c hc).1.1.1.1.1.2⟩

theorem brace_pat_no_match {k n : List Char} (hk : braceFreeB k = true)
    (hn : braceFreeB n = true) (hne : n ≠ k) (t : List Char) :
    ((k ++ ['}']).isPrefixOf (n ++ '}' :: t)) = false := by
  induction k generalizing n with
  | nil =>
    cases n with
    | nil => exact absurd rfl hne
    | cons d n' =>
      obtain ⟨_, hd2, _⟩ := braceFreeB_cons hn
      simp [List.isPrefixOf, Ne.symm hd2]
  | cons c k' ihk =>
    obtain ⟨hc1, hc2, hk'⟩ := braceFreeB_cons hk
    cases n with
    | nil => simp [List.isPrefixOf, hc2]
    | cons d n' =>
      obtain ⟨_, _, hn'⟩ := braceFreeB_cons hn
      by_cases hcd : c = d
      · subst hcd
        have hne' : n' ≠ k' := fun hh => hne (by rw [hh])
        simp [List.isPrefixOf, ihk hk' hn' hne']
      · simp [List.isPrefixOf, hcd]

theorem replaceSkip_render {toks : List Tok} {k v : List Char}
    (h : wfToksB toks = true) (hk : braceFreeB k = true) :
    replaceSkip ('{' :: (k ++ ['}'])) v 0 (render toks) =
      render (toks.map (substOne k v)) := by
  induction toks with
  | nil => rfl
  | cons tk rest ih =>
    obtain ⟨ht, hrest⟩ := wfToksB_cons h
    cases tk with
    | lit s =>
      show replaceSkip _ _ 0 (s ++ render rest) = _
      rw [replaceSkip_lit ht, ih hrest]
      rfl
    | hole n =>
      by_cases hnk : n = k
      · subst hnk
        show replaceSkip ('{' :: (n ++ ['}'])) v 0
          ('{' :: (n ++ '}' :: render rest)) = _
        rw [replaceSkip]
        rw [if_pos ⟨List.cons_ne_nil _ _, by
          rw [show ('{' :: (n ++ '}' :: render rest)) =
            ('{' :: (n ++ ['}'])) ++ render rest by simp]
          exact List.isPrefixOf_iff_prefix.mpr (List.prefix_append _ _)⟩]
        have hlen : ('{' :: (n ++ ['}'])).length - 1 = (n ++ ['}']).length := by
          simp
        rw [hlen]
        rw [show (n ++ '}' :: render rest) = (n ++ ['}']) ++ render rest by simp]
        rw [replaceSkip_skip, ih hrest]
        simp only [List.map_cons]
        rw [show substOne n v (Tok.hole n) = Tok.lit v by simp [substOne]]
        rfl
      · show replaceSkip ('{' :: (k ++ ['}'])) v 0
          ('{' :: (n ++ '}' :: render rest)) = _
        rw [replaceSkip]
        rw [if_neg (fun hco => by
          have := hco.2
          simp only [List.isPrefixOf, Bool.and_eq_true, beq_iff_eq] at this
          rw [brace_pat_no_match hk (plainNameB_braceFree ht) hnk (render rest)]
            at this
          exact absurd this.2 (by simp))]
        rw [@replaceSkip_lit (k ++ ['}']) v n ('}' :: render rest)
          (plainNameB_braceFree ht)]
        rw [replaceSkip]
        rw [if_neg (fun hco => by
          have := hco.2
          simp only [List.isPrefixOf, Bool.and_eq_true, beq_iff_eq] at this
          exact absurd this.1 (by decide))]
        rw [ih hrest]
        simp only [List.map_cons]
        rw [show substOne k v (Tok.hole n) = Tok.hole n by simp [substOne, hnk]]
        rfl

/-- One `str.replace` pass over a rendered template replaces exactly the
holes carrying the replaced name. -/
theorem strReplace_render {toks : List Tok} {k v : List Char}
    (h : wfToksB toks = true) (hk : braceFreeB k = true) :
    strReplace (render toks) ('{' :: (k ++ ['}'])) v =
      render (toks.map (substOne k v)) := by
  rw [strReplace, if_neg (List.cons_ne_nil _ _)]
  exact replaceSkip_render h hk

theorem wfToksB_map_substOne {toks : List Tok} {k v : List Char}
    (h : wfToksB toks = true) (hv : braceFreeB v = true) :
    wfToksB (toks.map (substOne k v)) = true := by
  simp only [wfToksB, List.all_eq_true, List.mem_map] at h ⊢
  rintro t ⟨t0, ht0, rfl⟩
  cases t0 with
  | lit s => exact h _ ht0
  | hole n =>
    have hh := h _ ht0
    by_cases hnk : n = k
    · simp [substOne, hnk, wfTokB, hv]
    · simpa [substOne, hnk, wfTokB] using hh

/-- The fallback loop over a rendered template performs the sequential
hole-for-value substitution, token by token. -/
theorem partialFormat_render {toks : List Tok} {kwargs : List (String × String)}
    (h : wfToksB toks = true)
    (hkv : kwargs.all
      (fun kv => braceFreeB kv.1.data && braceFreeB kv.2.data) = true) :
    partialFormat (render toks) kwargs = render (substHoles kwargs toks) := by
  induction kwargs generalizing toks with
  | nil => rfl
  | cons kv rest ih =>
    simp only [List.all_cons, Bool.and_eq_true] at hkv
    obtain ⟨⟨hk, hv⟩, hrest⟩ := hkv
    show List.foldl _ (strReplace (render toks) ('{' :: kv.1.data ++ ['}'])
      kv.2.data) rest = _
    rw [show ('{' :: kv.1.data ++ ['}']) = ('{' :: (kv.1.data ++ ['}'])) by rfl]
    rw [strReplace_render h hk]
    exact ih (wfToksB_map_substOne h hv) hrest

theorem substTok_step (k v : String) (rest : List (String × String)) (t : Tok) :
    substTok rest (substOne k.data v.data t) = substTok ((k, v) :: rest) t := by
  cases t with
  | lit s => rfl
  | hole n =>
    by_cases hn : n = k.data
    · subst hn
      obtain ⟨kl⟩ := k
      simp [substOne, substTok, lookupKw, List.find?]
    · obtain ⟨kl⟩ := k
      have hne : (String.mk kl == String.mk n) = false := by
        refine beq_eq_false_iff_ne.mpr fun hh => ?_
        injection hh with h2
        exact hn h2.symm
      simp [substOne, hn, substTok, lookupKw, List.find?, hne]

/-- Sequential substitution in keyword order agrees with the parallel
first-match substitution. -/
theorem substHoles_eq_map (kwargs : List (String × String)) (toks : List Tok) :
    substHoles kwargs toks = toks.map (substTok kwargs) := by
  induction kwargs generalizing toks with
  | nil =>
    rw [show (substTok [] : Tok → Tok) = id from funext fun t => by
      cases t <;> rfl]
    rw [List.map_id]
    rfl
  | cons kv rest ih =>
    show substHoles rest (toks.map (substOne kv.1.data kv.2.data)) = _
    rw [ih, List.map_map]
    exact List.map_congr_left fun t _ => substTok_step kv.1 kv.2 rest t

/-! ## Association-list lemmas for the store -/

theorem find?_key_isSome {α : Type} (m : List (String × α)) (k : String) :
    (m.find? (fun p => p.1 == k)).isSome = true ↔ k ∈ m.map Prod.fst := by
  rw [List.find?_isSome]
  constructor
  · rintro ⟨x, hx, hpx⟩
    simp only [beq_iff_eq] at hpx
    exact List.mem_map.mpr ⟨x, hx, hpx⟩
  · intro hk
    obtain ⟨x, hx, hfst⟩ := List.mem_map.mp hk
    exact ⟨x, hx, by simp [hfst]⟩

theorem pyDictGet_not_mem {fields : List (String × JValue)} {k : String}
    (d : JValue) (h : k ∉ fields.map Prod.fst) : pyDictGet fields k d = d := by
  unfold pyDictGet
  rw [List.find?_eq_none.mpr]
  intro x hx hpx
  simp only [beq_iff_eq] at hpx
  exact h (List.mem_map.mpr ⟨x, hx, hpx⟩)

theorem pyDictGet_mem {fields : List (String × JValue)} {k : String}
    {v : JValue} (d : JValue) (hnd : (fields.map Prod.fst).Nodup)
    (h : (k, v) ∈ fields) : pyDictGet fields k d = v := by
  induction fields with
  | nil => cases h
  | cons p rest ih =>
    rw [List.map_cons] at hnd
    obtain ⟨hp, hrestnd⟩ := List.nodup_cons.mp hnd
    rcases List.mem_cons.mp h with rfl | hmem
    · simp [pyDictGet, List.find?]
    · have hkp : (p.1 == k) = false := by
        refine beq_eq_false_iff_ne.mpr fun hh => hp ?_
        rw [hh]
        exact List.mem_map.mpr ⟨(k, v), hmem, rfl⟩
      unfold pyDictGet at ih ⊢
      rw [List.find?_cons, hkp]
      exact ih hrestnd hmem

theorem dictInsert_of_not_mem {α : Type} {m : List (String × α)} {k : String}
    {v : α} (h : k ∉ m.map Prod.fst) : dictInsert m k v = m ++ [(k, v)] := by
  unfold dictInsert
  rw [if_neg]
  intro hsome
  obtain ⟨x, hx, hpx⟩ := List.find?_isSome.mp hsome
  simp only [beq_iff_eq] at hpx
  exact h (List.mem_map.mpr ⟨x, hx, hpx⟩)

/-- The fields of a parsed prompt object (only applied to objects). -/
def objFieldsD : JValue → List (String × JValue)
  | .obj po => po
  | _ => []

theorem buildPrompts_ok {items : List (String × JValue)}
    {acc : List (String × Prompt)}
    (hvals : ∀ p ∈ items, ∃ po, p.2 = JValue.obj po)
    (hnd : (acc.map Prod.fst ++ items.map Prod.fst).Nodup) :
    buildPrompts items acc =
      .ok (acc ++ items.map (fun p => (p.1, mkPrompt p.1 (objFieldsD p.2)))) := by
  induction items generalizing acc with
  | nil => simp [buildPrompts]
  | cons p rest ih =>
    obtain ⟨k, v⟩ := p
    obtain ⟨po, hpo⟩ := hvals (k, v) (List.mem_cons_self _ _)
    simp only at hpo
    subst hpo
    show buildPrompts ((k, JValue.obj po) :: rest) acc = _
    rw [buildPrompts]
    have hk_not_acc : k ∉ acc.map Prod.fst := by
      intro hmem
      have := (List.nodup_append.mp hnd).2.2
      exact this hmem (by simp)
    rw [dictInsert_of_not_mem hk_not_acc]
    rw [ih (fun q hq => hvals q (List.mem_cons_of_mem _ hq))
      (by
        have : (acc ++ [(k, mkPrompt k po)]).map Prod.fst ++
            (rest.map Prod.fst) =
            acc.map Prod.fst ++ ((k, JValue.obj po) :: rest).map Prod.fst := by
          simp
        rw [this]
        exact hnd)]
    simp [objFieldsD]

theorem loadStep_version (fields : List (String × JValue)) (s : StoreState) :
    (loadStep (.parsed (.obj fields)) s).version =
      pyDictGet fields "version" (.str "1.0") := by
  simp only [loadStep]
  split <;> first | rfl | (split <;> rfl)

theorem storeGet_loaded {s : StoreState} {fields items : List (String × JValue)}
    {k : String} {v : JValue}
    (hp : pyDictGet fields "prompts" (.obj []) = .obj items)
    (hvals : ∀ p ∈ items, ∃ po, p.2 = JValue.obj po)
    (hnd : (items.map Prod.fst).Nodup)
    (hkv : (k, v) ∈ items) :
    storeGet (loadStep (.parsed (.obj fields)) s) k =
      some (mkPrompt k (objFieldsD v)) := by
  have hb := @buildPrompts_ok items [] hvals (by simpa using hnd)
  have hstate : loadStep (.parsed (.obj fields)) s =
      ⟨items.map (fun p => (p.1, mkPrompt p.1 (objFieldsD p.2))),
       pyDictGet fields "version" (.str "1.0")⟩ := by
    simp only [loadStep, hp, hb, List.nil_append]
  rw [hstate]
  unfold storeGet
  simp only
  clear hb hstate hp
  induction items with
  | nil => cases hkv
  | cons p rest ih =>
    rw [List.map_cons] at hnd
    obtain ⟨hp1, hrestnd⟩ := List.nodup_cons.mp hnd
    rcases List.mem_cons.mp hkv with rfl | hmem
    · simp [List.find?]
    · have hkp : (p.1 == k) = false := by
        refine beq_eq_false_iff_ne.mpr fun hh => hp1 ?_
        subst hh
        exact List.mem_map.mpr ⟨(p.1, v), hmem, rfl⟩
      simp only [List.map_cons, List.find?_cons, hkp]
      exact ih (fun q hq => hvals q (List.mem_cons_of_mem _ hq))
        hrestnd hmem

/-! ## Claim C1 -/

/-- **C1** (amended): a failed load leaves the in-memory mapping untouched
when the failure happens before any mutation — the file is missing, cannot
be opened, is not valid JSON, or its top-level value is not an object (so
`data.get` raises before any assignment).  (When the top-level value is an
object but its `"prompts"` value is not an object of objects, the failure
strikes after `self._prompts.clear()` and the mapping is lost — see the
counterexample.) -/
theorem load_failure_preserves_state :
    (∀ s, loadStep .missing s = s)
    ∧ (∀ s, loadStep .unreadable s = s)
    ∧ (∀ s, loadStep .parseError s = s)
    ∧ (∀ s d, (∀ fields, d ≠ .obj fields) → loadStep (.parsed d) s = s) := by
  refine ⟨fun _ => rfl, fun _ => rfl, fun _ => rfl, fun s d hd => ?_⟩
  cases d with
  | obj fields => exact absurd rfl (hd fields)
  | _ => rfl

/-- **C1** witness: a store with two prompts survives a load whose parsed
top-level value is a JSON array. -/
theorem load_failure_preserves_state_witness :
    loadStep (.parsed (.arr [.num 1]))
      ⟨[("a", mkPrompt "a" []), ("b", mkPrompt "b" [])], .str "1.0"⟩ =
      ⟨[("a", mkPrompt "a" []), ("b", mkPrompt "b" [])], .str "1.0"⟩ :=
  load_failure_preserves_state.2.2.2
    ⟨[("a", mkPrompt "a" []), ("b", mkPrompt "b" [])], .str "1.0"⟩
    (.arr [.num 1]) (fun _ h => by cases h)

/-- **C1** counterexample: the claim says a failed load never changes the
mapping.  But on a file whose JSON is the object `{"prompts": "oops"}`, the
load fails (`"oops".items()` raises `AttributeError`) *after*
`self._prompts.clear()`: a store holding 2 prompts ends with 0. -/
theorem load_clears_on_bad_prompts_value :
    storeLen ⟨[("a", mkPrompt "a" []), ("b", mkPrompt "b" [])], .str "1.0"⟩ = 2
    ∧ storeLen (loadStep (.parsed (.obj [("prompts", .str "oops")]))
        ⟨[("a", mkPrompt "a" []), ("b", mkPrompt "b" [])], .str "1.0"⟩) = 0 :=
  ⟨rfl, rfl⟩

/-! ## Claim C6 -/

/-- **C6** (amended): fields absent from a prompt object default to the empty
string for `text` and `notes`, the empty sequence for `variables` — but
`source` defaults to the string `"bundled"`, not to empty — and a missing
top-level `version` defaults to `"1.0"`; fields that are present are carried
over exactly, and the loaded store maps each key of the `prompts` object to
exactly the record built this way. -/
theorem load_defaults :
    (∀ (k : String) (po : List (String × JValue)),
      ("text" ∉ po.map Prod.fst → (mkPrompt k po).text = .str "")
      ∧ ("variables" ∉ po.map Prod.fst → (mkPrompt k po).«variables» = .arr [])
      ∧ ("source" ∉ po.map Prod.fst → (mkPrompt k po).source = .str "bundled")
      ∧ ("notes" ∉ po.map Prod.fst → (mkPrompt k po).notes = .str "")
      ∧ ((po.map Prod.fst).Nodup → ∀ v,
          (("text", v) ∈ po → (mkPrompt k po).text = v)
          ∧ (("variables", v) ∈ po → (mkPrompt k po).«variables» = v)
          ∧ (("source", v) ∈ po → (mkPrompt k po).source = v)
          ∧ (("notes", v) ∈ po → (mkPrompt k po).notes = v)))
    ∧ (∀ (fields : List (String × JValue)) (s : StoreState),
        ("version" ∉ fields.map Prod.fst →
          (loadStep (.parsed (.obj fields)) s).version = .str "1.0")
        ∧ ((fields.map Prod.fst).Nodup → ∀ v, ("version", v) ∈ fields →
          (loadStep (.parsed (.obj fields)) s).version = v))
    ∧ (∀ (s : StoreState) (fields items : List (String × JValue))
        (k : String) (v : JValue),
        pyDictGet fields "prompts" (.obj []) = .obj items →
        (∀ p ∈ items, ∃ po, p.2 = JValue.obj po) →
        (items.map Prod.fst).Nodup →
        (k, v) ∈ items →
        storeGet (loadStep (.parsed (.obj fields)) s) k =
          some (mkPrompt k (objFieldsD v))) := by
  refine ⟨fun k po => ⟨?_, ?_, ?_, ?_, ?_⟩, fun fields s => ⟨?_, ?_⟩,
    fun s fields items k v => storeGet_loaded⟩
  · intro h; simp [mkPrompt, pyDictGet_not_mem _ h]
  · intro h; simp [mkPrompt, pyDictGet_not_mem _ h]
  · intro h; simp [mkPrompt, pyDictGet_not_mem _ h]
  · intro h; simp [mkPrompt, pyDictGet_not_mem _ h]
  · intro hnd v
    exact ⟨fun h => by simp [mkPrompt, pyDictGet_mem _ hnd h],
      fun h => by simp [mkPrompt, pyDictGet_mem _ hnd h],
      fun h => by simp [mkPrompt, pyDictGet_mem _ hnd h],
      fun h => by simp [mkPrompt, pyDictGet_mem _ hnd h]⟩
  · intro h
    rw [loadStep_version, pyDictGet_not_mem _ h]
  · intro hnd v h
    rw [loadStep_version, pyDictGet_mem _ hnd h]

/-- **C6** witness: loading `{"prompts": {"k": {"text": "hi"}}}` yields a
record with the file's `text`, empty `variables` and `notes`, `source`
`"bundled"`, and version `"1.0"`. -/
theorem load_defaults_witness :
    (mkPrompt "k" [("text", .str "hi")]).text = .str "hi"
    ∧ (mkPrompt "k" [("text", .str "hi")]).«variables» = .arr []
    ∧ (mkPrompt "k" [("text", .str "hi")]).notes = .str ""
    ∧ (mkPrompt "k" [("text", .str "hi")]).source = .str "bundled"
    ∧ (loadStep (.parsed (.obj [("prompts",
        .obj [("k", .obj [("text", .str "hi")])])])) initialStore).version
        = .str "1.0"
    ∧ storeGet (loadStep (.parsed (.obj [("prompts",
        .obj [("k", .obj [("text", .str "hi")])])])) initialStore) "k"
        = some (mkPrompt "k" [("text", .str "hi")]) :=
  ⟨((load_defaults.1 "k" [("text", .str "hi")]).2.2.2.2 (by decide)
      (.str "hi")).1 (by simp),
   (load_defaults.1 "k" [("text", .str "hi")]).2.1 (by decide),
   (load_defaults.1 "k" [("text", .str "hi")]).2.2.2.1 (by decide),
   (load_defaults.1 "k" [("text", .str "hi")]).2.2.1 (by decide),
   (load_defaults.2.1 [("prompts", .obj [("k", .obj [("text", .str "hi")])])]
      initialStore).1 (by decide),
   load_defaults.2.2 initialStore _ _ "k" (.obj [("text", .str "hi")]) rfl
      (by rintro p hp; rcases List.mem_cons.mp hp with rfl | hp2
          · exact ⟨_, rfl⟩
          · cases hp2)
      (by decide) (by simp)⟩

/-- **C6** counterexample: the claim says every field other than `text`
defaults to *empty* when absent; but an absent `source` defaults to the
string `"bundled"`, which is not the empty string. -/
theorem load_source_default_not_empty :
    (storeGet (loadStep (.parsed (.obj [("prompts", .obj [("k", .obj [])])]))
        initialStore) "k").map Prompt.source = some (.str "bundled")
    ∧ JValue.str "bundled" ≠ JValue.str "" :=
  ⟨rfl, fun h => by injection h with h2; exact absurd h2 (by decide)⟩

/-! ## Claim C2 -/

/-- **C2** (amended): `Prompt.format` never raises when the variable mapping
is empty, and never raises on any template made of brace-free literals and
plain named replacement fields, whatever the supplied mapping — a missing
key degrades to the sequential-replacement fallback.  (On templates with
malformed braces or positional fields and a nonempty mapping, a
`ValueError`/`IndexError` escapes the `except KeyError` handler and
propagates — see the counterexample.) -/
theorem format_total_on_plain_templates (k : String) (vars src nts : JValue)
    (toks : List Tok) (kwargs : List (String × String))
    (h : wfToksB toks = true) :
    ∃ out, Prompt.format ⟨k, .str (String.mk (render toks)), vars, src, nts⟩
      kwargs = .ok out := by
  by_cases hkw : kwargs.isEmpty
  · exact ⟨_, by unfold Prompt.format; rw [if_pos hkw]⟩
  · rcases @doMarkup_render kwargs toks h with hok | ⟨n, _, _, herr⟩
    · refine ⟨.str (String.mk (render (toks.map (substTok kwargs)))), ?_⟩
      unfold Prompt.format
      rw [if_neg hkw]
      show (match doMarkup kwargs (render toks) with
            | .ok out => Except.ok (JValue.str (String.mk out))
            | .error (.keyError _) =>
                Except.ok (.str (String.mk (partialFormat (render toks) kwargs)))
            | .error e => Except.error e) = _
      rw [hok]
    · refine ⟨.str (String.mk (partialFormat (render toks) kwargs)), ?_⟩
      unfold Prompt.format
      rw [if_neg hkw]
      show (match doMarkup kwargs (render toks) with
            | .ok out => Except.ok (JValue.str (String.mk out))
            | .error (.keyError _) =>
                Except.ok (.str (String.mk (partialFormat (render toks) kwargs)))
            | .error e => Except.error e) = _
      rw [herr]

/-- **C2** witness: on `"Hello {name}, welcome to {app}!"` with only `name`
supplied, formatting returns normally. -/
theorem format_total_on_plain_templates_witness :
    ∃ out, Prompt.format
      ⟨"t", .str (String.mk (render
        [Tok.lit "Hello ".data, Tok.hole "name".data,
         Tok.lit ", welcome to ".data, Tok.hole "app".data, Tok.lit "!".data])),
       .arr [], .str "", .str ""⟩ [("name", "Alice")] = .ok out :=
  format_total_on_plain_templates "t" (.arr []) (.str "") (.str "")
    [Tok.lit "Hello ".data, Tok.hole "name".data,
     Tok.lit ", welcome to ".data, Tok.hole "app".data, Tok.lit "!".data]
    [("name", "Alice")] (by decide)

/-- **C2** counterexample: the claim says `Prompt.format` never raises, for
all template texts including malformed braces.  But only `KeyError` is
caught: `"Hello {".format(name="x")` raises `ValueError`, which propagates
out of `Prompt.format`. -/
theorem format_malformed_brace_raises :
    Prompt.format ⟨"greeting", .str "Hello \x7b", .arr [], .str "", .str ""⟩
      [("name", "x")] = .error .valueError := rfl

/-! ## Claim C4 -/

/-- **C4** (amended): on a template of brace-free literals and plain named
fields, with a nonempty mapping whose keys and values are brace-free,
`Prompt.format` replaces exactly the fields whose names have supplied values
and leaves every other field verbatim (in particular formatting
`"Hello {name}, welcome to {app}!"` with only `name="Alice"` yields exactly
`"Hello Alice, welcome to {app}!"` — see the witness).  Without the
brace-free proviso on values, the sequential replacement of the fallback can
re-substitute placeholder text arriving inside an earlier value — see the
counterexample. -/
theorem format_partial_substitution (k : String) (vars src nts : JValue)
    (toks : List Tok) (kwargs : List (String × String))
    (htoks : wfToksB toks = true)
    (hkv : kwargs.all
      (fun kv => braceFreeB kv.1.data && braceFreeB kv.2.data) = true)
    (hne : kwargs.isEmpty = false) :
    Prompt.format ⟨k, .str (String.mk (render toks)), vars, src, nts⟩ kwargs =
      .ok (.str (String.mk (render (toks.map (substTok kwargs))))) := by
  unfold Prompt.format
  rw [if_neg (by simp [hne])]
  show (match doMarkup kwargs (render toks) with
        | .ok out => Except.ok (JValue.str (String.mk out))
        | .error (.keyError _) =>
            Except.ok (.str (String.mk (partialFormat (render toks) kwargs)))
        | .error e => Except.error e) = _
  rcases @doMarkup_render kwargs toks htoks with hok | ⟨n, _, _, herr⟩
  · rw [hok]
  · rw [herr, partialFormat_render htoks hkv, substHoles_eq_map]

/-- **C4** witness: the claim's own example, exactly:
`"Hello {name}, welcome to {app}!"` with `name="Alice"` gives
`"Hello Alice, welcome to {app}!"`. -/
theorem format_partial_substitution_witness :
    Prompt.format
      ⟨"t", .str "Hello \x7bname\x7d, welcome to \x7bapp\x7d!",
       .arr [], .str "", .str ""⟩ [("name", "Alice")] =
      .ok (.str "Hello Alice, welcome to \x7bapp\x7d!") := by
  have h := format_partial_substitution "t" (.arr []) (.str "") (.str "")
    [Tok.lit "Hello ".data, Tok.hole "name".data,
     Tok.lit ", welcome to ".data, Tok.hole "app".data, Tok.lit "!".data]
    [("name", "Alice")] (by decide) (by decide) (by decide)
  rw [show String.mk (render
      [Tok.lit "Hello ".data, Tok.hole "name".data,
       Tok.lit ", welcome to ".data, Tok.hole "app".data, Tok.lit "!".data]) =
      "Hello \x7bname\x7d, welcome to \x7bapp\x7d!" by decide] at h
  rw [show String.mk (render (List.map (substTok [("name", "Alice")])
      [Tok.lit "Hello ".data, Tok.hole "name".data,
       Tok.lit ", welcome to ".data, Tok.hole "app".data, Tok.lit "!".data])) =
      "Hello Alice, welcome to \x7bapp\x7d!" by decide] at h
  exact h

/-- **C4** counterexample: the claim quantifies over every supplied mapping.
Formatting `"{a} {c}"` with `a="{b}", b="X"` (in that order): the claim
demands `{a}` become its stringified value `"{b}"` and `{c}` survive, i.e.
`"{b} {c}"`; the fallback's sequential `str.replace` then re-substitutes the
`"{b}"` that arrived inside the first value, and the code returns
`"X {c}"`. -/
theorem format_value_resubstitution :
    Prompt.format ⟨"t", .str "\x7ba\x7d \x7bc\x7d", .arr [], .str "", .str ""⟩
      [("a", "\x7bb\x7d"), ("b", "X")] = .ok (.str "X \x7bc\x7d")
    ∧ ("X \x7bc\x7d" : String) ≠ "\x7bb\x7d \x7bc\x7d" :=
  ⟨rfl, by decide⟩

/-! ## Claim C9 -/

/-- **C9**: after loading a well-formed prompts file (its `"prompts"` value
an object of objects, keys unique as in any parsed JSON object),
`list_keys()` is exactly the file's keys — a permutation of them, sorted by
Python's string order, without duplicates — and `has(key)` holds iff the key
is among them. -/
theorem store_list_keys_exact (s : StoreState)
    (fields items : List (String × JValue))
    (hp : pyDictGet fields "prompts" (.obj []) = .obj items)
    (hvals : ∀ p ∈ items, ∃ po, p.2 = JValue.obj po)
    (hnd : (items.map Prod.fst).Nodup) :
    (listKeys (loadStep (.parsed (.obj fields)) s)).Perm (items.map Prod.fst)
    ∧ List.Sorted strLe (listKeys (loadStep (.parsed (.obj fields)) s))
    ∧ (listKeys (loadStep (.parsed (.obj fields)) s)).Nodup
    ∧ ∀ k, hasKey (loadStep (.parsed (.obj fields)) s) k = true ↔
        k ∈ items.map Prod.fst := by
  have hb := @buildPrompts_ok items [] hvals (by simpa using hnd)
  have hstate : loadStep (.parsed (.obj fields)) s =
      ⟨items.map (fun p => (p.1, mkPrompt p.1 (objFieldsD p.2))),
       pyDictGet fields "version" (.str "1.0")⟩ := by
    simp only [loadStep, hp, hb, List.nil_append]
  have hkeys : (items.map (fun p => (p.1, mkPrompt p.1 (objFieldsD p.2)))).map
      Prod.fst = items.map Prod.fst := by
    rw [List.map_map]; rfl
  have hlk : listKeys (loadStep (.parsed (.obj fields)) s) =
      (items.map Prod.fst).insertionSort strLe := by
    rw [hstate]; unfold listKeys pySorted; rw [hkeys]
  refine ⟨?_, ?_, ?_, ?_⟩
  · rw [hlk]; exact List.perm_insertionSort strLe _
  · rw [hlk]; exact List.sorted_insertionSort strLe _
  · rw [hlk]
    exact ((List.perm_insertionSort strLe _).nodup_iff).mpr hnd
  · intro k
    rw [hstate]
    unfold hasKey
    simp only
    rw [find?_key_isSome, hkeys]

/-- **C9** witness: loading `{"prompts": {"b": {}, "a": {}}}` gives
`list_keys() = ["a", "b"]` and `has("a")`. -/
theorem store_list_keys_exact_witness :
    listKeys (loadStep (.parsed (.obj [("prompts",
      .obj [("b", .obj []), ("a", .obj [])])])) initialStore) = ["a", "b"]
    ∧ hasKey (loadStep (.parsed (.obj [("prompts",
      .obj [("b", .obj []), ("a", .obj [])])])) initialStore) "a" = true := by
  have h := store_list_keys_exact initialStore
    [("prompts", .obj [("b", .obj []), ("a", .obj [])])]
    [("b", .obj []), ("a", .obj [])] rfl
    (by rintro p hp
        rcases List.mem_cons.mp hp with rfl | hp2
        · exact ⟨_, rfl⟩
        · rcases List.mem_cons.mp hp2 with rfl | hp3
          · exact ⟨_, rfl⟩
          · cases hp3)
    (by decide)
  exact ⟨by decide, (h.2.2.2 "a").mpr (by decide)⟩

/-! ## Claim C3 -/

/-- **C3** (amended): `log_usage` returns the id generated at its top and
never raises — whatever the usage store does (the `try` block around the
persist and the tracing hand-off catches every failure) — provided the
effective prompt text is a string, which holds whenever the caller supplies
`prompt_text`, the key is absent from the active store (the lookup yields an
empty string), or the stored record's `text` is a string, as in any
well-typed store.  (A loaded record whose `text` is a truthy non-string
makes `_hash_prompt` raise `AttributeError` *outside* the `try` block — see
the counterexample.) -/
theorem hashEffective_str (t : String) :
    hashEffective (.str t) = .ok (if t = "" then "unknown" else hashPrompt t) := by
  by_cases h0 : t = "" <;> simp [hashEffective, JValue.truthy, h0]

theorem hashEffective_ok {p : JValue} {s : String}
    (h : hashEffective p = .ok s) :
    s = "unknown" ∨ ∃ t, p = .str t ∧ t ≠ "" ∧ s = hashPrompt t := by
  unfold hashEffective at h
  by_cases htr : p.truthy = true
  · rw [if_pos htr] at h
    cases p
    all_goals try exact Except.noConfusion h
    rename_i t
    injection h with h2
    right
    refine ⟨t, rfl, ?_, h2.symm⟩
    simpa [JValue.truthy] using htr
  · rw [if_neg htr] at h
    injection h with h2
    exact Or.inl h2.symm

theorem buildUsageEntry_str {store : StoreState} {logId now pk stage : String}
    {ptextArg model sid : Option String}
    {vars : Option (List (String × JValue))} {succ : Bool} {lat : ℚ}
    {nts : Option String} {t : String}
    (ht : resolvePromptText store pk ptextArg = .ok (.str t)) :
    buildUsageEntry store logId now pk stage ptextArg model sid vars succ
        lat nts =
      .ok { id := logId, timestamp := now, prompt_key := pk
            prompt_hash := if t = "" then "unknown" else hashPrompt t
            stage := stage, model := model, session_id := sid
            variables_used := vars.getD [], success := succ
            latency_ms := lat, notes := nts } := by
  simp only [buildUsageEntry, ht, hashEffective_str]

theorem log_usage_returns_id (store : StoreState)
    (persist : UsageLog → Except PyExc Unit) (logId now : String)
    (prompt_key stage : String) (prompt_text : Option String)
    (model session_id : Option String)
    (variables_used : Option (List (String × JValue)))
    (success : Bool) (latency_ms : ℚ) (notes : Option String)
    (h : ∀ p, prompt_text = none → storeGet store prompt_key = some p →
      ∃ t, p.text = .str t) :
    log_usage store persist logId now prompt_key stage prompt_text model
      session_id variables_used success latency_ms notes = .ok logId := by
  have hres : ∃ t, resolvePromptText store prompt_key prompt_text =
      .ok (.str t) := by
    cases hpt : prompt_text with
    | some t => exact ⟨t, rfl⟩
    | none =>
      cases hg : storeGet store prompt_key with
      | none =>
        refine ⟨"", ?_⟩
        show get_prompt store prompt_key [] = _
        unfold get_prompt
        rw [hg]
      | some p =>
        obtain ⟨t, htx⟩ := h p hpt hg
        refine ⟨t, ?_⟩
        show get_prompt store prompt_key [] = _
        unfold get_prompt
        rw [hg]
        show Except.ok p.text = _
        rw [htx]
  obtain ⟨t, ht⟩ := hres
  unfold log_usage
  rw [buildUsageEntry_str ht]
  have hgen : ∀ (r : Except PyExc Unit),
      (match r with
       | .ok _ => (Except.ok logId : Except PyExc String)
       | .error _ => .ok logId) = .ok logId := fun r => by cases r <;> rfl
  exact hgen _

/-- **C3** witness: with a failing persistence layer (`persist` always
raising) and a present prompt text, `log_usage` still returns the id. -/
theorem log_usage_returns_id_witness :
    log_usage initialStore (fun _ => .error .valueError) "id1" "2024-01-01"
      "greeting" "chat" (some "hello") none none none true 0 none =
      .ok "id1" :=
  log_usage_returns_id initialStore (fun _ => .error .valueError) "id1"
    "2024-01-01" "greeting" "chat" (some "hello") none none none true 0 none
    (fun _ hq => by cases hq)

/-- **C3** counterexample: the claim says `log_usage` never raises regardless
of the state of the prompt store.  A store loaded from the well-formed file
`{"prompts": {"k": {"text": [null]}}}` holds a truthy non-string `text`;
`log_usage("k", "chat")` then raises `AttributeError` at
`prompt_text.encode()` before the `try` block, even though persistence
succeeds. -/
theorem log_usage_raises_on_nonstring_text :
    log_usage ⟨[("k", ⟨"k", .arr [.null], .arr [], .str "", .str ""⟩)],
        .str "1.0"⟩
      (fun _ => .ok ()) "id0" "2024-01-01" "k" "chat" none none none none
      true 0 none = .error .attributeError := rfl

/-! ## Claim C10 -/

/-- **C10**: every entry `log_usage` builds carries as `prompt_hash` either
exactly the first 12 hexadecimal characters of the SHA-256 digest of the
prompt text, or the sentinel `"unknown"`; when the effective text is a
string, the sentinel is used precisely for the empty string — which covers
both a key absent from the active store (the facade lookup yields `""`) and
a present prompt with empty text — so an empty text is never hashed. -/
theorem usage_entry_hash (store : StoreState) (logId now : String)
    (prompt_key stage : String) (prompt_text : Option String)
    (model session_id : Option String)
    (variables_used : Option (List (String × JValue)))
    (success : Bool) (latency_ms : ℚ) (notes : Option String) (e : UsageLog)
    (h : buildUsageEntry store logId now prompt_key stage prompt_text model
      session_id variables_used success latency_ms notes = .ok e) :
    (∀ t, resolvePromptText store prompt_key prompt_text = .ok (.str t) →
      e.prompt_hash = if t = "" then "unknown" else (sha256hex t).take 12)
    ∧ (e.prompt_hash = "unknown" ∨
        ∃ t, resolvePromptText store prompt_key prompt_text = .ok (.str t) ∧
          t ≠ "" ∧ e.prompt_hash = (sha256hex t).take 12)
    ∧ (storeGet store prompt_key = none → prompt_text = none →
        resolvePromptText store prompt_key prompt_text = .ok (.str "")) := by
  refine ⟨?_, ?_, ?_⟩
  · intro t hres
    rw [buildUsageEntry_str hres] at h
    injection h with h2
    rw [← h2]
    rfl
  · cases hres : resolvePromptText store prompt_key prompt_text with
    | error err => simp [buildUsageEntry, hres] at h
    | ok ptext =>
      cases hhash : hashEffective ptext with
      | error e2 => simp [buildUsageEntry, hres, hhash] at h
      | ok hsh =>
        simp only [buildUsageEntry, hres, hhash] at h
        injection h with h2
        rcases hashEffective_ok hhash with hu | ⟨t, rfl, hne, hs⟩
        · left; rw [← h2]; exact hu
        · right
          exact ⟨t, rfl, hne, by rw [← h2]; exact hs⟩
  · intro hget hpt
    rw [hpt]
    show get_prompt store prompt_key [] = _
    unfold get_prompt
    rw [hget]

set_option maxRecDepth 40000 in
/-- **C10** witness: for the store holding `"Hello {name}!"` under
`"greeting"`, the built entry's hash is the first 12 hex characters of the
text's SHA-256 digest (and concretely `"87566760931a"`); for the empty
store, the hash is the sentinel `"unknown"`. -/
theorem usage_entry_hash_witness :
    (∃ e, buildUsageEntry
        ⟨[("greeting", ⟨"greeting", .str "Hello \x7bname\x7d!",
          .arr [.str "name"], .str "test", .str ""⟩)], .str "1.0"⟩
        "id" "ts" "greeting" "chat" none none none none true 0 none = .ok e
      ∧ e.prompt_hash = (sha256hex "Hello \x7bname\x7d!").take 12
      ∧ e.prompt_hash = "87566760931a")
    ∧ (∃ e, buildUsageEntry initialStore "id" "ts" "greeting" "chat" none
        none none none true 0 none = .ok e ∧ e.prompt_hash = "unknown") := by
  constructor
  · refine ⟨_, rfl, ?_, by decide⟩
    have h := usage_entry_hash
      ⟨[("greeting", ⟨"greeting", .str "Hello \x7bname\x7d!",
        .arr [.str "name"], .str "test", .str ""⟩)], .str "1.0"⟩
      "id" "ts" "greeting" "chat" none none none none true 0 none _ rfl
    have h2 := h.1 "Hello \x7bname\x7d!" rfl
    rw [h2, if_neg (by decide)]
  · refine ⟨_, rfl, ?_⟩
    have h := usage_entry_hash initialStore "id" "ts" "greeting" "chat" none
      none none none true 0 none _ rfl
    have h2 := h.1 "" (h.2.2 rfl rfl)
    rw [h2]
    rfl

/-! ## Claim C5 -/

/-- The spec's aggregation example: 5 entries for `"greeting"`, 4 successes
and 1 failure. -/
def statsSampleRows : List UsageRow :=
  [⟨"t0", "2024-01-01T00:00:00", "greeting", "h", "chat", none, none, none, 1, 100, none⟩,
   ⟨"t1", "2024-01-01T00:00:01", "greeting", "h", "chat", none, none, none, 1, 110, none⟩,
   ⟨"t2", "2024-01-01T00:00:02", "greeting", "h", "chat", none, none, none, 1, 120, none⟩,
   ⟨"t3", "2024-01-01T00:00:03", "greeting", "h", "chat", none, none, none, 1, 130, none⟩,
   ⟨"t4", "2024-01-01T00:00:04", "greeting", "h", "chat", none, none, none, 0, 140, none⟩]

/-- An unmeasured-latency entry for the same key. -/
def zeroLatRow : UsageRow :=
  ⟨"t5", "2024-01-01T00:00:05", "greeting", "h", "chat", none, none, none, 1, 0, none⟩

/-- **C5**: `get_stats` returns the total entry count for the key; a success
rate that is `0` when the total is `0` (never a division by zero) and
`successes/total*100` otherwise; an average latency of `0` when no entry of
the key has positive latency; a zero-latency entry leaves the average
unchanged while still counting toward the total; and the spec's example — 5
entries with 4 successes — yields a success rate of exactly 80. -/
theorem usage_stats_correct :
    (∀ rows key, (getStats rows key).total_usage
        = (rows.filter (fun r => r.prompt_key == key)).length)
    ∧ (∀ rows key, (rows.filter (fun r => r.prompt_key == key)).length = 0 →
        (getStats rows key).success_rate = 0)
    ∧ (∀ rows key, 0 < (rows.filter (fun r => r.prompt_key == key)).length →
        (getStats rows key).success_rate =
          (((rows.filter (fun r => r.prompt_key == key)).filter
              (fun r => r.success == 1)).length : ℚ) /
            ((rows.filter (fun r => r.prompt_key == key)).length : ℚ) * 100)
    ∧ (∀ rows key, (∀ r ∈ rows, r.prompt_key = key → r.latency_ms ≤ 0) →
        (getStats rows key).avg_latency_ms = 0)
    ∧ (∀ rows key e, e.prompt_key = key → e.latency_ms = 0 →
        (getStats (rows ++ [e]) key).avg_latency_ms
            = (getStats rows key).avg_latency_ms
        ∧ (getStats (rows ++ [e]) key).total_usage
            = (getStats rows key).total_usage + 1)
    ∧ (getStats statsSampleRows "greeting").success_rate = 80
    ∧ (getStats statsSampleRows "greeting").total_usage = 5 := by
  refine ⟨fun rows key => rfl, fun rows key h => ?_, fun rows key h => ?_,
    fun rows key h => ?_, fun rows key e hk hl => ⟨?_, ?_⟩, ?_, ?_⟩
  · simp [getStats, h]
  · simp only [getStats]
    rw [if_pos h]
  · have hlat : (rows.filter (fun r => r.prompt_key == key)).filter
        (fun r => decide (0 < r.latency_ms)) = [] := by
      rw [List.filter_eq_nil_iff]
      intro r hr
      obtain ⟨hrmem, hrk⟩ := List.mem_filter.mp hr
      have := h r hrmem (by simpa using hrk)
      simp [not_lt.mpr this]
    simp [getStats, hlat]
  · have h1 : List.filter (fun r => r.prompt_key == key) [e] = [e] := by
      simp [hk]
    have h2 : List.filter (fun r => decide (0 < r.latency_ms)) [e] = [] := by
      simp [hl]
    simp [getStats, List.filter_append, h1, h2]
  · have h1 : List.filter (fun r => r.prompt_key == key) [e] = [e] := by
      simp [hk]
    simp [getStats, List.filter_append, h1]
  · norm_num [getStats, statsSampleRows]
  · rfl

/-- **C5** witness: an unlogged key has success rate `0`; appending a
zero-latency entry leaves the average latency unchanged and raises the total
by one. -/
theorem usage_stats_correct_witness :
    (getStats [] "greeting").success_rate = 0
    ∧ ((getStats (statsSampleRows ++ [zeroLatRow]) "greeting").avg_latency_ms
        = (getStats statsSampleRows "greeting").avg_latency_ms
      ∧ (getStats (statsSampleRows ++ [zeroLatRow]) "greeting").total_usage
        = (getStats statsSampleRows "greeting").total_usage + 1) :=
  ⟨usage_stats_correct.2.1 [] "greeting" (by decide),
   usage_stats_correct.2.2.2.2.1 statsSampleRows "greeting" zeroLatRow rfl rfl⟩

/-! ## Claim C7 -/

/-- The spec's top-N example: usage counts 3, 2, 1 for `"a"`, `"b"`,
`"c"`. -/
def topSampleRows : List UsageRow :=
  [⟨"u0", "2024-01-01T00:00:00", "a", "h", "t", none, none, none, 1, 0, none⟩,
   ⟨"u1", "2024-01-01T00:00:01", "a", "h", "t", none, none, none, 1, 0, none⟩,
   ⟨"u2", "2024-01-01T00:00:02", "a", "h", "t", none, none, none, 1, 0, none⟩,
   ⟨"u3", "2024-01-01T00:00:03", "b", "h", "t", none, none, none, 1, 0, none⟩,
   ⟨"u4", "2024-01-01T00:00:04", "b", "h", "t", none, none, none, 1, 0, none⟩,
   ⟨"u5", "2024-01-01T00:00:05", "c", "h", "t", none, none, none, 1, 0, none⟩]

/-- **C7**: `get_top_prompts` returns at most `limit` groups, ordered by
usage count descending; each returned group carries the key's entry count,
success count, average latency over *all* of the group's entries
(zero-latency included) and most recent timestamp; every key with at least
one entry gets a group when `limit` accommodates all distinct keys; and the
spec's example — counts 3, 2, 1 for `"a"`, `"b"`, `"c"` — comes back in
exactly that order with those counts. -/
theorem usage_top_prompts_correct :
    (∀ rows limit, (getTopPrompts rows limit).length ≤ limit)
    ∧ (∀ rows limit, List.Sorted countDesc (getTopPrompts rows limit))
    ∧ (∀ rows limit g, g ∈ getTopPrompts rows limit →
        g = topAgg rows g.prompt_key
        ∧ g.usage_count =
            (rows.filter (fun r => r.prompt_key == g.prompt_key)).length
        ∧ g.success_count =
            ((rows.filter (fun r => r.prompt_key == g.prompt_key)).filter
              (fun r => r.success == 1)).length
        ∧ g.last_used = maxTimestamp
            ((rows.filter (fun r => r.prompt_key == g.prompt_key)).map
              (fun r => r.timestamp)))
    ∧ (∀ rows limit k, k ∈ rows.map (fun r => r.prompt_key) →
        ((rows.map (fun r => r.prompt_key)).dedup).length ≤ limit →
        ∃ g ∈ getTopPrompts rows limit, g.prompt_key = k)
    ∧ ((getTopPrompts topSampleRows 10).map
        (fun g => (g.prompt_key, g.usage_count)) =
        [("a", 3), ("b", 2), ("c", 1)]) := by
  refine ⟨fun rows limit => ?_, fun rows limit => ?_,
    fun rows limit g hg => ?_, fun rows limit k hk hlim => ?_, ?_⟩
  · exact List.length_take_le _ _
  · exact (List.sorted_insertionSort countDesc _).sublist
      (List.take_sublist _ _)
  · have hg2 : g ∈ ((rows.map (fun r => r.prompt_key)).dedup).map
        (topAgg rows) := by
      have := List.mem_of_mem_take hg
      exact (List.perm_insertionSort countDesc _).mem_iff.mp this
    obtain ⟨k, _, rfl⟩ := List.mem_map.mp hg2
    have hpk : (topAgg rows k).prompt_key = k := rfl
    rw [hpk]
    exact ⟨rfl, rfl, rfl, rfl⟩
  · have hlen : ((((rows.map (fun r => r.prompt_key)).dedup).map
        (topAgg rows)).insertionSort countDesc).length ≤ limit := by
      rw [List.length_insertionSort, List.length_map]
      exact hlim
    have htake : (getTopPrompts rows limit) =
        (((rows.map (fun r => r.prompt_key)).dedup).map
          (topAgg rows)).insertionSort countDesc := by
      unfold getTopPrompts
      exact List.take_of_length_le hlen
    refine ⟨topAgg rows k, ?_, rfl⟩
    rw [htake]
    rw [(List.perm_insertionSort countDesc _).mem_iff]
    exact List.mem_map.mpr ⟨k, List.mem_dedup.mpr hk, rfl⟩
  · decide

/-- **C7** witness: in the example every key gets a group. -/
theorem usage_top_prompts_correct_witness :
    ∃ g ∈ getTopPrompts topSampleRows 10, g.prompt_key = "c" :=
  usage_top_prompts_correct.2.2.2.1 topSampleRows 10 "c" (by decide) (by decide)

/-! ## Claim C8 -/

theorem toRecentRow_fields {r : UsageRow} {e : RecentRow}
    (h : toRecentRow r = .ok e) :
    e.timestamp = r.timestamp ∧ e.prompt_key = r.prompt_key ∧
    e.stage = r.stage ∧ e.session_id = r.session_id := by
  cases hl : loadVars r.variables_used with
  | error e2 => simp [toRecentRow, hl] at h
  | ok v =>
    simp only [toRecentRow, hl] at h
    injection h with h2
    rw [← h2]
    exact ⟨rfl, rfl, rfl, rfl⟩

theorem mapExcept_forall2 {α β : Type} {f : α → Except PyExc β} :
    ∀ {l : List α} {out : List β}, mapExcept f l = .ok out →
      List.Forall₂ (fun a b => f a = .ok b) l out := by
  intro l
  induction l with
  | nil =>
    intro out h
    injection h with h2
    rw [← h2]
    exact List.Forall₂.nil
  | cons a rest ih =>
    intro out h
    cases hfa : f a with
    | error e => simp [mapExcept, hfa] at h
    | ok b =>
      cases hrest : mapExcept f rest with
      | error e => simp [mapExcept, hfa, hrest] at h
      | ok bs =>
        simp only [mapExcept, hfa, hrest] at h
        injection h with h2
        rw [← h2]
        exact List.Forall₂.cons hfa (ih hrest)

theorem forall2_mem_right {α β : Type} {R : α → β → Prop} {l : List α}
    {out : List β} (h : List.Forall₂ R l out) :
    ∀ b ∈ out, ∃ a ∈ l, R a b := by
  induction h with
  | nil => intro b hb; cases hb
  | cons hR hrest ih =>
    intro b hb
    rcases List.mem_cons.mp hb with rfl | hb2
    · exact ⟨_, List.mem_cons_self _ _, hR⟩
    · obtain ⟨a, ha, hr⟩ := ih b hb2
      exact ⟨a, List.mem_cons_of_mem _ ha, hr⟩

theorem forall2_timestamps {l : List UsageRow} {out : List RecentRow}
    (h : List.Forall₂ (fun r e => toRecentRow r = .ok e) l out) :
    out.map (fun e => e.timestamp) = l.map (fun r => r.timestamp) := by
  induction h with
  | nil => rfl
  | cons hR hrest ih => simp [ih, (toRecentRow_fields hR).1]

theorem mapExcept_ok_of_all {α β : Type} {f : α → Except PyExc β} :
    ∀ {l : List α}, (∀ a ∈ l, (f a).isOk = true) →
      ∃ out, mapExcept f l = .ok out := by
  intro l
  induction l with
  | nil => exact fun _ => ⟨[], rfl⟩
  | cons a rest ih =>
    intro hall
    have ha := hall a (List.mem_cons_self _ _)
    cases hfa : f a with
    | error e => rw [hfa] at ha; exact absurd ha (by simp [Except.isOk, Except.toBool])
    | ok b =>
      obtain ⟨bs, hbs⟩ := ih (fun x hx => hall x (List.mem_cons_of_mem _ hx))
      exact ⟨b :: bs, by simp [mapExcept, hfa, hbs]⟩

/-- **C8** (amended): whenever `get_recent` returns, it returns at most
`limit` entries ordered by timestamp descending, each matching every filter
supplied as a nonempty string (filters AND-combined; absent filters not
applied), with `variables_used` deserialized into the parsed value; a
missing (`NULL`) or empty stored value defaults to the empty mapping, and
`get_recent` returns normally whenever every row's stored value is missing,
empty or decodable.  (A stored value that is present but not decodable
raises instead of defaulting — see the counterexample.) -/
theorem usage_recent_correct :
    (∀ rows limit pk st sid out,
      getRecent rows limit pk st sid = .ok out →
        out.length ≤ limit
        ∧ (out.map (fun e => e.timestamp)).Pairwise
            (fun a b => strLe b a)
        ∧ (∀ e ∈ out,
            (∀ v, pk = some v → v ≠ "" → e.prompt_key = v)
            ∧ (∀ v, st = some v → v ≠ "" → e.stage = v)
            ∧ (∀ v, sid = some v → v ≠ "" → e.session_id = some v)))
    ∧ (∀ rows limit pk st sid,
        (∀ r ∈ rows, (loadVars r.variables_used).isOk = true) →
        ∃ out, getRecent rows limit pk st sid = .ok out)
    ∧ loadVars none = .ok (.obj [])
    ∧ loadVars (some "") = .ok (.obj []) := by
  refine ⟨fun rows limit pk st sid out h => ?_, fun rows limit pk st sid hall => ?_,
    rfl, rfl⟩
  · have hf2 := mapExcept_forall2 h
    have hsel_sorted : List.Pairwise tsDesc
        (((rows.filter (rowMatches pk st sid)).insertionSort tsDesc).take
          limit) :=
      (List.sorted_insertionSort tsDesc _).sublist (List.take_sublist _ _)
    refine ⟨?_, ?_, ?_⟩
    · rw [hf2.length_eq.symm]
      exact List.length_take_le _ _
    · rw [forall2_timestamps hf2]
      rw [List.pairwise_map]
      exact List.Pairwise.imp (fun hab => hab) hsel_sorted
    · intro e he
      obtain ⟨r, hr, hre⟩ := forall2_mem_right hf2 e he
      have hrmem : r ∈ rows.filter (rowMatches pk st sid) :=
        ((List.perm_insertionSort tsDesc _).mem_iff).mp
          (List.mem_of_mem_take hr)
      have hmatch : rowMatches pk st sid r = true :=
        (List.mem_filter.mp hrmem).2
      obtain ⟨hts, hpk2, hst2, hsid2⟩ := toRecentRow_fields hre
      unfold rowMatches at hmatch
      simp only [Bool.and_eq_true] at hmatch
      obtain ⟨⟨hm1, hm2⟩, hm3⟩ := hmatch
      refine ⟨?_, ?_, ?_⟩
      · intro v hv hne
        subst hv
        simp [hne] at hm1
        rw [hpk2]
        exact hm1
      · intro v hv hne
        subst hv
        simp [hne] at hm2
        rw [hst2]
        exact hm2
      · intro v hv hne
        subst hv
        simp [hne] at hm3
        rw [hsid2]
        exact hm3
  · have hall2 : ∀ r ∈ ((rows.filter (rowMatches pk st sid)).insertionSort
        tsDesc).take limit, (toRecentRow r).isOk = true := by
      intro r hr
      have hrmem : r ∈ rows :=
        (List.mem_filter.mp (((List.perm_insertionSort tsDesc _).mem_iff).mp
          (List.mem_of_mem_take hr))).1
      have hko := hall r hrmem
      cases hl : loadVars r.variables_used with
      | error e2 =>
        rw [hl] at hko
        exact absurd hko (by simp [Except.isOk, Except.toBool])
      | ok v => simp [toRecentRow, hl, Except.isOk, Except.toBool]
    exact mapExcept_ok_of_all hall2

/-- **C8** witness: one decodable row comes back matching both supplied
filters with its variables deserialized; stored `NULL` and `""` default to
the empty mapping. -/
theorem usage_recent_correct_witness :
    (∃ out, getRecent
      [⟨"i1", "2024-01-01T00:00:01", "x", "h", "y", none, some "s1",
        some "\x7b\"n\": \"v\"\x7d", 1, 0, none⟩,
       ⟨"i2", "2024-01-01T00:00:02", "x", "h", "y", none, some "s1",
        none, 1, 0, none⟩]
      50 (some "x") (some "y") none = .ok out)
    ∧ loadVars none = .ok (.obj [])
    ∧ loadVars (some "") = .ok (.obj []) :=
  ⟨usage_recent_correct.2.1 _ 50 (some "x") (some "y") none
      (by intro r hr
          rcases List.mem_cons.mp hr with rfl | hr2
          · rfl
          · rcases List.mem_cons.mp hr2 with rfl | hr3
            · rfl
            · cases hr3),
   usage_recent_correct.2.2.1, usage_recent_correct.2.2.2⟩

/-- **C8** counterexample: the claim says `variables_used` defaults to an
empty mapping when the stored value is unparseable.  But
`json.loads(entry["variables_used"] or "\x7b\x7d")` only substitutes the
default for a falsy (`NULL`/empty) value: a stored `"not json"` raises
`JSONDecodeError` out of `get_recent` instead of defaulting. -/
theorem recent_raises_on_unparseable :
    getRecent
      [⟨"i1", "2024-01-01T00:00:01", "k", "h", "chat", none, none,
        some "not json", 1, 0, none⟩]
      50 none none none = .error .jsonDecodeError := rfl

end Unversion
